import Mathlib

/-!
A shallow embedding of `scripts/gen.go`

The generator reads an API description (types and methods) and emits Go source
text.  This development embeds the text-producing functions of `scripts/gen.go`
as Lean functions and proves properties of them.

Conventions of the embedding:

* A Go `string` is a byte sequence; it is embedded as `Str = List Char`, one
  `Char` per byte.  Every literal of the generator is ASCII, so the literals are
  written as Lean string literals and turned into lists with `.toList`.
* A run-time panic (index out of range, slice bounds out of range) is the value
  `none` of an `Option`.
* A Go `map[string]V` is an association list with pairwise distinct keys; the
  order of the list is the order in which `range` happens to enumerate the map.
* `strings.Title` and `strings.ToLower` depend on the Unicode tables of the Go
  standard library; they are taken as parameters (`Lib`), and `asciiLib` is their
  ASCII fragment.
* The line printed on standard output at line 228 is not part of the embedding.
-/

namespace Gen

/-- Go strings, as lists of bytes (one `Char` per byte). -/
abbrev Str := List Char

/-! ## The functions of package `strings`, `fmt` and `sort` used by the generator -/

/-- The call `strings.HasPrefix(s, p)`. -/
def HasPrefix (s p : Str) : Bool := p.isPrefixOf s

/-- The call `strings.TrimPrefix(s, p)`: `s` without the leading `p`, or `s` itself. -/
def TrimPrefix (s p : Str) : Str := if HasPrefix s p then s.drop p.length else s

/-- The call `strings.TrimLeft(s, cutset)`: drop the leading bytes that are in `cutset`. -/
def TrimLeft (s cutset : Str) : Str := s.dropWhile (fun c => cutset.contains c)

/-- Worker of `Split`: `cur` holds the bytes of the segment being read. -/
def splitGo (sep : Char) : Str → Str → List Str
  | cur, [] => [cur]
  | cur, c :: cs => if c = sep then cur :: splitGo sep [] cs else splitGo sep (cur ++ [c]) cs

/-- The call `strings.Split(s, sep)` for a one-byte separator. -/
def Split (s : Str) (sep : Char) : List Str := splitGo sep [] s

/-- The call `strings.Join(elems, sep)`. -/
def Join : List Str → Str → Str
  | [], _ => []
  | [a], _ => a
  | a :: b :: rest, sep => a ++ sep ++ Join (b :: rest) sep

/-- The call `fmt.Sprintf(format, arg)` for a format whose only verbs are `%s`:
the first `%s` is replaced by `arg`, a later `%s` has no operand left. -/
def Sprintf1 : Str → Str → Str
  | '%' :: 's' :: rest, arg => arg ++ Sprintf1 rest "%!s(MISSING)".toList
  | c :: rest, arg => c :: Sprintf1 rest arg
  | [], _ => []

/-- The call `sort.Strings`: the increasing rearrangement for the bytewise
lexicographic order of Go strings. -/
def sortStrings (l : List Str) : List Str := l.insertionSort (fun a b => a ≤ b)

/-- The call `strings.HasSuffix(s, suffix)`. -/
def HasSuffix (s suffix : Str) : Bool := suffix.isSuffixOf s

/-- The two functions of package `strings` that consult the Unicode tables. -/
structure Lib where
  /-- The function `strings.Title`. -/
  Title : Str → Str
  /-- The function `strings.ToLower`. -/
  ToLower : Str → Str

/-- The separator test of `strings.Title` on ASCII bytes: letters, digits and the
underscore are not separators. -/
def isSeparator (r : Char) : Bool :=
  !(r.isAlphanum || r = '_' || 128 ≤ r.toNat)

/-- Worker of `asciiTitle`: `prev` is the previous byte. -/
def titleGo : Char → Str → Str
  | _, [] => []
  | prev, r :: rs => (if isSeparator prev then r.toUpper else r) :: titleGo r rs

/-- ASCII fragment of `strings.Title`: the first letter of every word is upper-cased. -/
def asciiTitle (s : Str) : Str := titleGo ' ' s

/-- ASCII fragment of `strings.ToLower`. -/
def asciiToLower (s : Str) : Str := s.map Char.toLower

/-- The ASCII fragment of the library: exact on strings of ASCII bytes. -/
def asciiLib : Lib := ⟨asciiTitle, asciiToLower⟩

/-! ## The data model (`gen.go`, lines 12-39) -/

structure TypeFields where
  Field : Str
  Types : List Str
  Description : Str
  deriving DecidableEq

structure TypeDescription where
  Description : List Str
  Fields : List TypeFields
  deriving DecidableEq

structure MethodFields where
  Parameter : Str
  Types : List Str
  Required : Str
  Description : Str
  deriving DecidableEq

structure MethodDescription where
  Fields : List MethodFields
  Returns : List Str
  Description : List Str
  deriving DecidableEq

structure APIDescription where
  Types : List (Str × TypeDescription)
  Methods : List (Str × MethodDescription)
  deriving DecidableEq

/-- The invariant of a Go map: no key occurs twice. -/
def NodupKeys {V : Type} (m : List (Str × V)) : Prop := (m.map Prod.fst).Nodup

instance {V : Type} (m : List (Str × V)) : Decidable (NodupKeys m) :=
  inferInstanceAs (Decidable (m.map Prod.fst).Nodup)

/-- The map read `m[k]`; a missing key gives the zero value. -/
def mapGet {V : Type} (zero : V) (m : List (Str × V)) (k : Str) : V :=
  (m.lookup k).getD zero

/-- The index expression `xs[0]`, which panics on an empty slice. -/
def index0 {α : Type} (xs : List α) : Option α := xs.head?

/-! ## `toGoTypes` (lines 309-327) -/

/-- The loop of `toGoTypes`: while `s` starts with `"Array of "`, extend `pref`
by `"[]"` and cut the prefix off `s`.  Every round shortens `s`, so `s.length`
rounds are enough. -/
def arrayLoop : Nat → Str → Str → Str × Str
  | 0, pref, s => (pref, s)
  | fuel + 1, pref, s =>
    if HasPrefix s "Array of ".toList then
      arrayLoop fuel (pref ++ "[]".toList) (TrimPrefix s "Array of ".toList)
    else (pref, s)

/-- The `switch` of `toGoTypes` followed by the final `return pref + s`. -/
def baseType (s : Str) : Str :=
  if s = "Integer".toList then "int64".toList
  else if s = "Float".toList then "float64".toList
  else if s = "Boolean".toList then "bool".toList
  else if s = "String".toList then "string".toList
  else s

def toGoTypes (s : Str) : Str :=
  let (pref, s) := arrayLoop s.length [] s
  pref ++ baseType s

/-! ## `isTgType`, `isRequiredField` and the identifier transformers -/

/-- The zero value of `TypeDescription`. -/
def zeroType : TypeDescription := ⟨[], []⟩

/-- The zero value of `MethodDescription`. -/
def zeroMethod : MethodDescription := ⟨[], [], []⟩

def isTgType (tgTypes : List (Str × TypeDescription)) (goType : Str) : Bool :=
  (tgTypes.lookup goType).isSome

def isRequiredField (f : MethodFields) : Bool := f.Required = "Yes".toList

def snakeToTitle (L : Lib) (s : Str) : Str :=
  ((Split s '_').map L.Title).flatten

/-- The text of `snakeToCamel`; the slice `title[:1]` panics on an empty title. -/
def snakeToCamel (L : Lib) (s : Str) : Option Str :=
  let title := snakeToTitle L s
  if title.length < 1 then none
  else some (L.ToLower (title.take 1) ++ title.drop 1)

/-! ## `generateTypeDef` (lines 87-108) -/

/-- Lines 98-101: the mapped type of a field, with the optional wrapping. -/
def memberType (d : APIDescription) (fields : TypeFields) : Option Str := do
  let goType ← (index0 fields.Types).map toGoTypes
  if isTgType d.Types goType && HasPrefix fields.Description "Optional.".toList then
    pure ("*".toList ++ goType)
  else pure goType

/-- The member line written at line 103 for a field whose type is `goType`. -/
def memberLine (L : Lib) (fields : TypeFields) (goType : Str) : Str :=
  "\n".toList ++ snakeToTitle L fields.Field ++ " ".toList ++ goType
    ++ " `json:\"".toList ++ fields.Field ++ "\"`".toList

/-- The body of the loop over the fields (lines 96-103). -/
def fieldDef (L : Lib) (d : APIDescription) (fields : TypeFields) : Option Str := do
  let goType ← memberType d fields
  pure ("\n// ".toList ++ fields.Description ++ memberLine L fields goType)

def generateTypeDef (L : Lib) (d : APIDescription) (tgTypeName : Str) : Option Str := do
  let tgType := mapGet zeroType d.Types tgTypeName
  let docs := (tgType.Description.map (fun x => "\n// ".toList ++ x)).flatten
  let members ← tgType.Fields.mapM (fieldDef L d)
  pure (docs ++ "\ntype ".toList ++ tgTypeName ++ " struct \x7b".toList ++ members.flatten
    ++ "\n\x7d".toList)

/-! ## `getArgs` (lines 264-290) -/

/-- The loop of `getArgs` over the fields, threading the two slices. -/
def argsLoop (L : Lib) : List MethodFields → List Str → List Str → Option (List Str × List Str)
  | [], requiredArgs, optionalArgs => some (requiredArgs, optionalArgs)
  | f :: fs, requiredArgs, optionalArgs =>
    if isRequiredField f then do
      let camel ← snakeToCamel L f.Parameter
      let t0 ← index0 f.Types
      argsLoop L fs (requiredArgs ++ [camel ++ " ".toList ++ toGoTypes t0]) optionalArgs
    else do
      let t0 ← index0 f.Types
      argsLoop L fs requiredArgs
        (optionalArgs ++ [snakeToTitle L f.Parameter ++ " ".toList ++ toGoTypes t0])

def getArgs (L : Lib) (name : Str) (method : MethodDescription) : Option (Str × Str) := do
  let (requiredArgs, optionalArgs) ← argsLoop L method.Fields [] []
  if optionalArgs.length > 0 then
    let optionalsName := snakeToTitle L name ++ "Opts".toList
    let optionalsStruct := "\ntype ".toList ++ optionalsName ++ " struct \x7b".toList
      ++ (optionalArgs.map (fun opt => "\n".toList ++ opt)).flatten ++ "\n\x7d".toList
    pure (Join (requiredArgs ++ ["opts ".toList ++ optionalsName]) ", ".toList, optionalsStruct)
  else pure (Join requiredArgs ", ".toList, [])

/-! ## `getDefaultReturnVal`, `goTypeToString`, `getRetVarName` -/

def getDefaultReturnVal (s : Str) : Str :=
  if HasPrefix s "*".toList || HasPrefix s "[]".toList then "nil".toList
  else if s = "int64".toList then "0".toList
  else if s = "float64".toList then "0.0".toList
  else if s = "bool".toList then "false".toList
  else if s = "string".toList then "\"\"".toList
  else s

def goTypeToString (t : Str) : Str :=
  if t = "int64".toList then "strconv.FormatInt(%s, 10)".toList
  else if t = "float64".toList then "strconv.FormatFloat(%s, \x27f\x27, -1, 64)".toList
  else if t = "bool".toList then "strconv.FormatBool(%s)".toList
  else if t = "string".toList then "%s".toList
  else []

/-- The loop `for strings.HasPrefix(s, p) { s = strings.TrimPrefix(s, p) }`. -/
def trimLoop (p : Str) : Nat → Str → Str
  | 0, s => s
  | fuel + 1, s => if HasPrefix s p then trimLoop p fuel (TrimPrefix s p) else s

/-- The text of `getRetVarName`; the slice `retType[:1]` panics on an empty string. -/
def getRetVarName (L : Lib) (retType : Str) : Option Str :=
  let r1 := trimLoop "*".toList retType.length retType
  let r2 := trimLoop "[]".toList r1.length r1
  if r2.length < 1 then none else some (L.ToLower (r2.take 1))

/-! ## `methodArgsToValues` (lines 216-252) -/

/-- Lines 237-241: the `json.Marshal` statement, its error return and the `v.Add`. -/
def marshalBlock (f : MethodFields) (goParam bytesVarName defaultRetVal : Str) : Str :=
  "\n\t".toList ++ bytesVarName ++ ", err := json.Marshal(".toList ++ goParam ++ ")".toList
  ++ "\n\tif err != nil \x7b".toList
  ++ "\n\t\treturn ".toList ++ defaultRetVal ++ ", fmt.Errorf(\"failed to marshal ".toList
    ++ f.Parameter ++ ": %w\", err)".toList
  ++ "\n\t\x7d".toList
  ++ "\n\tv.Add(\"".toList ++ f.Parameter ++ "\", string(".toList ++ bytesVarName ++ "))".toList

/-- The body of the loop of `methodArgsToValues`: the text written for one field
(`continue` writes nothing). -/
def argToValues (L : Lib) (f : MethodFields) (defaultRetVal : Str) : Option Str := do
  let camel ← snakeToCamel L f.Parameter
  let goParam := if !isRequiredField f then "opts.".toList ++ snakeToTitle L f.Parameter else camel
  let t0 ← index0 f.Types
  let converter := goTypeToString (toGoTypes t0)
  if converter = [] then
    if HasPrefix t0 "Input".toList then pure []
    else
      let bytesVarName := camel ++ "Bs".toList
      let isArray := HasPrefix t0 "Array of ".toList
      pure ((if isArray then "\nif ".toList ++ goParam ++ " != nil \x7b".toList else [])
        ++ marshalBlock f goParam bytesVarName defaultRetVal
        ++ (if isArray then "\n\x7d".toList else []))
  else
    pure ("\nv.Add(\"".toList ++ f.Parameter ++ "\", ".toList ++ Sprintf1 converter goParam
      ++ ")".toList)

def methodArgsToValues (L : Lib) (method : MethodDescription) (defaultRetVal : Str) :
    Option Str := do
  let parts ← method.Fields.mapM (fun f => argToValues L f defaultRetVal)
  pure parts.flatten

/-! ## `generateMethodDef` (lines 170-214) -/

/-- Lines 174-177: the mapped return type, wrapped when it names a declared type. -/
def methodRetType (d : APIDescription) (tgMethod : MethodDescription) : Option Str := do
  let retType ← (index0 tgMethod.Returns).map toGoTypes
  pure (if isTgType d.Types retType then "*".toList ++ retType else retType)

/-- Lines 194-199: the dispatch statement and its error check. -/
def dispatchBlock (tgMethodName defaultRetVal : Str) : Str :=
  "\n".toList
  ++ "\nr, err := bot.Request(\"".toList ++ tgMethodName ++ "\", v, nil)".toList
  ++ "\n\tif err != nil \x7b".toList
  ++ "\n\t\treturn ".toList ++ defaultRetVal ++ ", err".toList
  ++ "\n\t\x7d".toList
  ++ "\n".toList

/-- Lines 201-211: the declaration of the result variable, the final return and
the closing brace. -/
def decodeBlock (L : Lib) (retType : Str) : Option Str := do
  let retVarName ← getRetVarName L retType
  let isPointer := HasPrefix retType "*".toList
  let retVarType := if isPointer then TrimLeft retType "*".toList else retType
  let addr : Str := if isPointer then "&".toList else []
  pure ("\nvar ".toList ++ retVarName ++ " ".toList ++ retVarType
    ++ "\nreturn ".toList ++ addr ++ retVarName ++ ", json.Unmarshal(r, &".toList ++ retVarName
    ++ ")".toList
    ++ "\n\x7d".toList)

def generateMethodDef (L : Lib) (d : APIDescription) (tgMethod : MethodDescription)
    (tgMethodName : Str) : Option Str := do
  let retType ← methodRetType d tgMethod
  let defaultRetVal := getDefaultReturnVal retType
  let (args, optionalsStruct) ← getArgs L tgMethodName tgMethod
  let opts : Str := if optionalsStruct ≠ [] then "\n".toList ++ optionalsStruct else []
  let docs := (tgMethod.Description.map (fun x => "\n// ".toList ++ x)).flatten
  let sig := "\nfunc (bot Bot) ".toList ++ L.Title tgMethodName ++ "(".toList ++ args
    ++ ") (".toList ++ retType ++ ", error) \x7b".toList
  let values ← methodArgsToValues L tgMethod defaultRetVal
  let decode ← decodeBlock L retType
  pure (opts ++ docs ++ sig ++ "\n\tv := urlLib.Values\x7b\x7d".toList ++ values
    ++ dispatchBlock tgMethodName defaultRetVal ++ decode)

/-! ## `writeGenToFile` (lines 110-133) -/

inductive GenError where
  | openFailed
  | writeFailed
  | formatFailed
  deriving DecidableEq

/-- Whether the three operating-system calls of one run succeed. -/
structure Sys where
  openOk : Bool
  firstWriteOk : Bool
  secondWriteOk : Bool

/-- The call `f.WriteAt(b, off)` on a file holding `content`: the bytes from `off`
on are overwritten by `b`, a gap is filled with zero bytes, the rest stays. -/
def WriteAt (content b : Str) (off : Nat) : Str :=
  content.take off ++ List.replicate (off - content.length) (Char.ofNat 0) ++ b
    ++ content.drop (off + b.length)

/-- The text of `writeGenToFile`: the error returned (`none` for `nil`) and the file
afterwards (`none` when it does not exist).  `prior` is the file before the call,
`format` is `format.Source`.  A failed write is taken to leave the file as it was. -/
def writeGenToFile (sys : Sys) (format : Str → Option Str) (prior : Option Str) (file : Str) :
    Option GenError × Option Str :=
  if !sys.openOk then (some .openFailed, prior)
  else
    -- O_WRONLY|O_CREATE|O_TRUNC: the file exists and is empty
    let c0 : Str := []
    let bs := file
    if !sys.firstWriteOk then (some .writeFailed, some c0)
    else
      let c1 := WriteAt c0 bs 0
      match format bs with
      | none => (some .formatFailed, some c1)
      | some fmted =>
        if !sys.secondWriteOk then (some .writeFailed, some c1)
        else (none, some (WriteAt c1 fmted 0))

/-! ## `generateTypes` (lines 63-85) and `generateMethods` (lines 140-168) -/

def typesHeader : Str :=
  "\n// THIS FILE IS AUTOGENERATED. DO NOT EDIT.\n// Regen by running \x27go generate\x27 in the repo root.\n\npackage gen\n\n".toList

def methodsHeader : Str :=
  "\n// THIS FILE IS AUTOGENERATED. DO NOT EDIT.\n// Regen by running \x27go generate\x27 in the repo root.\n\npackage gen\nimport (\n\turlLib \"net/url\" // renamed to avoid clashes with url vars\n\t\"encoding/json\"\n\t\"strconv\"\n\t\"fmt\"\n)\n".toList

/-- The text `generateTypes` builds and hands to `writeGenToFile`. -/
def generateTypesText (L : Lib) (d : APIDescription) : Option Str := do
  let types := sortStrings (d.Types.map Prod.fst)
  let defs ← types.mapM (generateTypeDef L d)
  pure (typesHeader ++ defs.flatten)

def generateTypes (L : Lib) (sys : Sys) (format : Str → Option Str) (prior : Option Str)
    (d : APIDescription) : Option (Option GenError × Option Str) := do
  let file ← generateTypesText L d
  pure (writeGenToFile sys format prior file)

/-- The text `generateMethods` builds and hands to `writeGenToFile`. -/
def generateMethodsText (L : Lib) (d : APIDescription) : Option Str := do
  let methods := sortStrings (d.Methods.map Prod.fst)
  let defs ← methods.mapM
    (fun tgMethodName => generateMethodDef L d (mapGet zeroMethod d.Methods tgMethodName) tgMethodName)
  pure (methodsHeader ++ defs.flatten)

def generateMethods (L : Lib) (sys : Sys) (format : Str → Option Str) (prior : Option Str)
    (d : APIDescription) : Option (Option GenError × Option Str) := do
  let file ← generateMethodsText L d
  pure (writeGenToFile sys format prior file)

/-! ## Sample schema -/

def idField : TypeFields := ⟨"message_id".toList, ["Integer".toList], "Unique id".toList⟩

def replyField : TypeFields :=
  ⟨"reply_to_message".toList, ["Message".toList], "Optional. The original".toList⟩

def photoField : TypeFields :=
  ⟨"photo".toList, ["Array of PhotoSize".toList], "Optional. Sizes".toList⟩

def sampleTypes : List (Str × TypeDescription) :=
  [("Message".toList, ⟨["A message.".toList], [idField, replyField, photoField]⟩),
   ("PhotoSize".toList, ⟨[], [⟨"width".toList, ["Integer".toList], "Width".toList⟩]⟩)]

def sendMessage : MethodDescription :=
  ⟨[⟨"chat_id".toList, ["Integer".toList, "String".toList], "Yes".toList, "Target".toList⟩,
    ⟨"text".toList, ["String".toList], "Optional".toList, "Text".toList⟩,
    ⟨"entities".toList, ["Array of MessageEntity".toList], "Optional".toList, "Ents".toList⟩,
    ⟨"photo".toList, ["InputFile".toList], "Yes".toList, "File".toList⟩],
   ["Message".toList], ["Send a message.".toList]⟩

/-- A schema that declares a type under the name `[]Foo`. -/
def bracketAPI : APIDescription :=
  ⟨[("[]Foo".toList, ⟨[], []⟩),
    ("Bar".toList, ⟨[], [⟨"foos".toList, ["Array of Foo".toList], "Optional. List".toList⟩]⟩)],
   []⟩

def foosField : TypeFields := ⟨"foos".toList, ["Array of Foo".toList], "Optional. List".toList⟩

/-- A method with one required parameter named `_`. -/
def underscoreMethod : MethodDescription :=
  ⟨[⟨"_".toList, ["Integer".toList], "Yes".toList, "A number".toList⟩], ["Boolean".toList], []⟩

/-- A method with one required upload parameter named `_`. -/
def uploadMethod : MethodDescription :=
  ⟨[⟨"_".toList, ["InputFile".toList], "Yes".toList, "A file".toList⟩], ["Boolean".toList], []⟩

def entitiesField : MethodFields :=
  ⟨"entities".toList, ["Array of MessageEntity".toList], "Optional".toList, "Ents".toList⟩

/-- The text generated for the field `entities` with the default value `nil`. -/
def entitiesText : Str :=
  "\nif opts.Entities != nil \x7b\n\tentitiesBs, err := json.Marshal(opts.Entities)\n\tif err != nil \x7b\n\t\treturn nil, fmt.Errorf(\"failed to marshal entities: %w\", err)\n\t\x7d\n\tv.Add(\"entities\", string(entitiesBs))\n\x7d".toList

/-- The sample schema with its two types enumerated in the other order. -/
def sampleAPISwapped : APIDescription :=
  ⟨[("PhotoSize".toList, ⟨[], [⟨"width".toList, ["Integer".toList], "Width".toList⟩]⟩),
    ("Message".toList, ⟨["A message.".toList], [idField, replyField, photoField]⟩)],
   [("sendMessage".toList, sendMessage)]⟩

/-- The schema without types and methods (the document `{}`). -/
def emptyAPI : APIDescription := ⟨[], []⟩

/-- The header of the types unit as `format.Source` returns it: the leading blank
line and the trailing blank line are gone. -/
def formattedTypesHeader : Str :=
  "// THIS FILE IS AUTOGENERATED. DO NOT EDIT.\n// Regen by running \x27go generate\x27 in the repo root.\n\npackage gen\n".toList

def getMe : MethodDescription := ⟨[], ["Message".toList], ["Get me.".toList]⟩

/-- The text generated for `getMe` in the sample schema. -/
def getMeText : Str :=
  "\n// Get me.\nfunc (bot Bot) GetMe() (*Message, error) \x7b\n\tv := urlLib.Values\x7b\x7d\n\nr, err := bot.Request(\"getMe\", v, nil)\n\tif err != nil \x7b\n\t\treturn nil, err\n\t\x7d\n\nvar m Message\nreturn &m, json.Unmarshal(r, &m)\n\x7d".toList

def sampleAPI : APIDescription :=
  ⟨sampleTypes, [("sendMessage".toList, sendMessage)]⟩

/-! ## Reference mapping of type tokens -/

/-- The primitive table of the type mapper, as the specification words it. -/
def refBase (b : Str) : Str :=
  if b = "Integer".toList then "int64".toList
  else if b = "Float".toList then "float64".toList
  else if b = "Boolean".toList then "bool".toList
  else if b = "String".toList then "string".toList
  else b

/-- The string `p` repeated `n` times. -/
def repeatStr (p : Str) : Nat → Str
  | 0 => []
  | n + 1 => p ++ repeatStr p n

/-- The reference mapping: `n` levels of array around the token `b`. -/
def refMapping (n : Nat) (b : Str) : Str := repeatStr "[]".toList n ++ refBase b

/-- The value of `snakeToCamel` when the title is not empty. -/
def camelOf (L : Lib) (s : Str) : Str :=
  L.ToLower ((snakeToTitle L s).take 1) ++ (snakeToTitle L s).drop 1

/-- The first type alternative of a field that has one. -/
def firstType (ts : List Str) : Str := ts.headD []

/-- The positional entries of the specification: one per required field. -/
def requiredEntries (L : Lib) (fs : List MethodFields) : List Str :=
  (fs.filter isRequiredField).map
    (fun f => camelOf L f.Parameter ++ " ".toList ++ toGoTypes (firstType f.Types))

/-- The members of the options aggregate of the specification: one per field that
is not required. -/
def optionalEntries (L : Lib) (fs : List MethodFields) : List Str :=
  (fs.filter (fun f => !isRequiredField f)).map
    (fun f => snakeToTitle L f.Parameter ++ " ".toList ++ toGoTypes (firstType f.Types))

/-- A field whose first type alternative begins with `"Input"`. -/
def isInputField (f : MethodFields) : Bool :=
  match f.Types with
  | t :: _ => HasPrefix t "Input".toList
  | [] => false

/-- The method without its upload fields. -/
def dropInputFields (m : MethodDescription) : MethodDescription :=
  { m with Fields := m.Fields.filter (fun f => !isInputField f) }

/-! ## Reference forms of the identifier transformers -/

/-- A lowercase ASCII letter or a digit. -/
def isLowerAlnum (c : Char) : Bool := c.isLower || c.isDigit

/-- A segment with its first character upper-cased and the rest unchanged. -/
def capitalize : Str → Str
  | [] => []
  | c :: cs => c.toUpper :: cs

/-- A string with only its first character lower-cased. -/
def lowerFirst : Str → Str
  | [] => []
  | c :: cs => c.toLower :: cs

/-! ## Narrowing to the first alternative -/

/-- A list of alternatives cut down to its first element. -/
def firstOnly (ts : List Str) : List Str := ts.take 1

def narrowTypeField (f : TypeFields) : TypeFields := { f with Types := firstOnly f.Types }

def narrowType (t : TypeDescription) : TypeDescription :=
  { t with Fields := t.Fields.map narrowTypeField }

def narrowMethodField (f : MethodFields) : MethodFields := { f with Types := firstOnly f.Types }

def narrowMethod (m : MethodDescription) : MethodDescription :=
  { m with Fields := m.Fields.map narrowMethodField, Returns := firstOnly m.Returns }

/-- The schema with every list of alternatives cut down to its first element. -/
def narrowAPI (d : APIDescription) : APIDescription :=
  ⟨d.Types.map (fun p => (p.1, narrowType p.2)), d.Methods.map (fun p => (p.1, narrowMethod p.2))⟩

/-! ## The scenario of the specification -/

/-- The method `sendMessage` of the scenario: the required integer `chat_id` and
the text `text`, whose required flag `req` is any string; returns `Message`. -/
def scenarioMethod (req d1 d2 : Str) (docs : List Str) : MethodDescription :=
  ⟨[⟨"chat_id".toList, ["Integer".toList], "Yes".toList, d1⟩,
    ⟨"text".toList, ["String".toList], req, d2⟩],
   ["Message".toList], docs⟩

/-- The options struct expected for the scenario, after the blank line. -/
def scenarioOpts : Str :=
  "\n\ntype SendMessageOpts struct \x7b\nText string\n\x7d".toList

/-- The signature expected for the scenario. -/
def scenarioSignature : Str :=
  "\nfunc (bot Bot) SendMessage(chatId int64, opts SendMessageOpts) (*Message, error) \x7b".toList

/-- The binding expected for the scenario, from the signature on. -/
def scenarioBody : Str :=
  "\nfunc (bot Bot) SendMessage(chatId int64, opts SendMessageOpts) (*Message, error) \x7b\n\tv := urlLib.Values\x7b\x7d\nv.Add(\"chat_id\", strconv.FormatInt(chatId, 10))\nv.Add(\"text\", opts.Text)\n\nr, err := bot.Request(\"sendMessage\", v, nil)\n\tif err != nil \x7b\n\t\treturn nil, err\n\t\x7d\n\nvar m Message\nreturn &m, json.Unmarshal(r, &m)\n\x7d".toList

/-- The number of positions of `s` at which `pat` occurs. -/
def countOcc (pat : Str) : Str → Nat
  | [] => 0
  | c :: cs => (if HasPrefix (c :: cs) pat then 1 else 0) + countOcc pat cs

/-- The call `strings.Index(s, pat)`, with `none` for -1. -/
def indexOf (pat : Str) : Str → Option Nat
  | [] => if pat = [] then some 0 else none
  | c :: cs => if HasPrefix (c :: cs) pat then some 0 else (indexOf pat cs).map (· + 1)

/-! ## Reference forms of the emitted lines -/

/-- The member type the specification gives a type field: the mapping of the first
alternative, wrapped when it names a declared type and the field is optional. -/
def wrappedType (d : APIDescription) (f : TypeFields) : Str :=
  if isTgType d.Types (toGoTypes (firstType f.Types))
      && HasPrefix f.Description "Optional.".toList then
    "*".toList ++ toGoTypes (firstType f.Types)
  else toGoTypes (firstType f.Types)

/-- The canonical textual form of a primitive value `p` of schema type `t`. -/
def primitiveConversion (t p : Str) : Str :=
  if t = "Integer".toList then "strconv.FormatInt(".toList ++ p ++ ", 10)".toList
  else if t = "Float".toList then
    "strconv.FormatFloat(".toList ++ p ++ ", \x27f\x27, -1, 64)".toList
  else if t = "Boolean".toList then "strconv.FormatBool(".toList ++ p ++ ")".toList
  else p

def chatIdField : MethodFields :=
  ⟨"chat_id".toList, ["Integer".toList, "String".toList], "Yes".toList, "Target".toList⟩

/-! ## Methods whose result variable meets another name -/

/-- A schema that declares `Video` and `Message`. -/
def videoAPI : APIDescription :=
  ⟨[("Message".toList, ⟨[], []⟩), ("Video".toList, ⟨[], []⟩)], []⟩

/-- A method without parameters that returns `Video`. -/
def getVideo : MethodDescription := ⟨[], ["Video".toList], []⟩

/-- A method that returns `Message` and has the required parameter `m`. -/
def echoMethod : MethodDescription :=
  ⟨[⟨"m".toList, ["Integer".toList], "Yes".toList, "A number".toList⟩], ["Message".toList], []⟩

def textField : MethodFields :=
  ⟨"text".toList, ["String".toList], "Optional".toList, "Text".toList⟩

/-! ## Fields named `_` that are not required, and a return type made of array prefixes -/

/-- An array parameter named `_` that is not required. -/
def underscoreArrayField : MethodFields :=
  ⟨"_".toList, ["Array of Integer".toList], "Optional".toList, "Numbers".toList⟩

def underscoreArrayMethod : MethodDescription :=
  ⟨[underscoreArrayField], ["Boolean".toList], []⟩

/-- A text parameter named `_` that is not required. -/
def underscoreTextField : MethodFields :=
  ⟨"_".toList, ["String".toList], "Optional".toList, "A text".toList⟩

def underscoreTextMethod : MethodDescription :=
  ⟨[underscoreTextField], ["Boolean".toList], []⟩

/-- A method without parameters whose return alternative is the bare array prefix. -/
def arrayOnlyMethod : MethodDescription := ⟨[], ["Array of ".toList], []⟩

/-! ## Lemmas on the string functions -/

theorem arrayOf_eq : "Array of ".toList = ['A', 'r', 'r', 'a', 'y', ' ', 'o', 'f', ' '] := rfl

theorem hasPrefix_append (p s : Str) : HasPrefix (p ++ s) p = true := by
  induction p with
  | nil => simp [HasPrefix, List.isPrefixOf]
  | cons a p ih => simp [HasPrefix, List.isPrefixOf]

theorem trimPrefix_append (p s : Str) : TrimPrefix (p ++ s) p = s := by
  simp [TrimPrefix, hasPrefix_append]

theorem hasPrefix_split {s p : Str} (h : HasPrefix s p = true) : s = p ++ s.drop p.length := by
  induction p generalizing s with
  | nil => simp
  | cons a p ih =>
    cases s with
    | nil => simp [HasPrefix, List.isPrefixOf] at h
    | cons b s =>
      simp only [HasPrefix, List.isPrefixOf, Bool.and_eq_true, beq_iff_eq] at h
      obtain ⟨hab, hp⟩ := h
      have := ih (s := s) hp
      simp only [List.length_cons, List.drop_succ_cons, List.cons_append]
      rw [← this, hab]

theorem hasPrefix_length {s p : Str} (h : HasPrefix s p = true) : p.length ≤ s.length := by
  have := congrArg List.length (hasPrefix_split h)
  simp only [List.length_append] at this
  omega

theorem trimPrefix_length_lt {s p : Str} (h : HasPrefix s p = true) (hp : 0 < p.length) :
    (TrimPrefix s p).length < s.length := by
  have := hasPrefix_length h
  simp only [TrimPrefix, h, if_true, List.length_drop]
  omega

/-! ## Lemmas on the loop of `toGoTypes` -/

theorem arrayLoop_fst (fuel : Nat) (pref s : Str) :
    arrayLoop fuel pref s = (pref ++ (arrayLoop fuel [] s).1, (arrayLoop fuel [] s).2) := by
  induction fuel generalizing pref s with
  | zero => simp [arrayLoop]
  | succ k ih =>
    simp only [arrayLoop]
    split
    · rw [ih (pref ++ "[]".toList), ih ([] ++ "[]".toList)]
      simp
    · simp

theorem arrayLoop_succ (fuel : Nat) (pref s : Str) (h : s.length ≤ fuel) :
    arrayLoop (fuel + 1) pref s = arrayLoop fuel pref s := by
  induction fuel generalizing pref s with
  | zero =>
    have hs : s = [] := List.length_eq_zero.mp (Nat.le_zero.mp h)
    subst hs
    simp [arrayLoop, HasPrefix, arrayOf_eq, List.isPrefixOf]
  | succ k ih =>
    rw [arrayLoop]
    conv_rhs => rw [arrayLoop]
    split
    · next hp =>
      apply ih
      have := trimPrefix_length_lt hp (by decide)
      omega
    · rfl

theorem arrayLoop_add (k : Nat) (pref s : Str) :
    arrayLoop (s.length + k) pref s = arrayLoop s.length pref s := by
  induction k with
  | zero => rfl
  | succ k ih => rw [← Nat.add_assoc, arrayLoop_succ _ _ _ (by omega), ih]

/-- With `s.length` rounds the loop of `toGoTypes` runs to its exit: what is left of
`s` no longer starts with `"Array of "`. -/
theorem arrayLoop_exit (fuel : Nat) (pref s : Str) (h : s.length ≤ fuel) :
    HasPrefix (arrayLoop fuel pref s).2 "Array of ".toList = false := by
  induction fuel generalizing pref s with
  | zero =>
    have hs : s = [] := List.length_eq_zero.mp (Nat.le_zero.mp h)
    subst hs
    simp [arrayLoop, HasPrefix, arrayOf_eq, List.isPrefixOf]
  | succ k ih =>
    rw [arrayLoop]
    split
    · next hp =>
      apply ih
      have := trimPrefix_length_lt hp (by decide)
      omega
    · next hp => simpa using hp

theorem toGoTypes_array (s : Str) :
    toGoTypes ("Array of ".toList ++ s) = "[]".toList ++ toGoTypes s := by
  have hlen : ("Array of ".toList ++ s).length = s.length + 8 + 1 := by
    simp [arrayOf_eq]
  simp only [toGoTypes]
  rw [hlen, arrayLoop, hasPrefix_append, if_pos rfl, trimPrefix_append, arrayLoop_add,
    arrayLoop_fst]
  simp

theorem toGoTypes_base (b : Str) (h : HasPrefix b "Array of ".toList = false) :
    toGoTypes b = baseType b := by
  simp only [toGoTypes]
  cases hb : b.length with
  | zero => simp [arrayLoop]
  | succ k =>
    rw [arrayLoop, h]
    simp

theorem toGoTypes_repeat (n : Nat) (b : Str) (h : HasPrefix b "Array of ".toList = false) :
    toGoTypes (repeatStr "Array of ".toList n ++ b) = repeatStr "[]".toList n ++ baseType b := by
  induction n with
  | zero => simpa [repeatStr] using toGoTypes_base b h
  | succ k ih =>
    simp only [repeatStr, List.append_assoc]
    rw [toGoTypes_array, ih]

theorem lookup_isSome_mem {V : Type} (m : List (Str × V)) (k : Str)
    (h : (m.lookup k).isSome = true) : k ∈ m.map Prod.fst := by
  induction m with
  | nil => simp at h
  | cons p m ih =>
    obtain ⟨a, b⟩ := p
    by_cases hk : k = a
    · subst hk
      exact List.mem_cons_self _ _
    · have hb : (k == a) = false := by simpa using hk
      simp only [List.lookup, hb] at h
      exact List.mem_cons_of_mem _ (ih h)

theorem isTgType_iff (m : List (Str × TypeDescription)) (k : Str) :
    isTgType m k = true ↔ k ∈ m.map Prod.fst := by
  constructor
  · exact lookup_isSome_mem m k
  · intro h
    induction m with
    | nil => simp at h
    | cons p m ih =>
      obtain ⟨a, b⟩ := p
      by_cases hk : k = a
      · subst hk
        simp only [isTgType, List.lookup, beq_self_eq_true, Option.isSome_some]
      · have hb : (k == a) = false := by simpa using hk
        have hm : k ∈ m.map Prod.fst := by
          rcases List.mem_cons.mp h with h1 | h1
          · exact absurd h1 hk
          · exact h1
        simp only [isTgType, List.lookup, hb]
        exact ih hm

/-- With `s.length` rounds the loops of `getRetVarName` run to their exit. -/
theorem trimLoop_exit (p : Str) (hp : 0 < p.length) (fuel : Nat) (s : Str)
    (h : s.length ≤ fuel) : HasPrefix (trimLoop p fuel s) p = false := by
  induction fuel generalizing s with
  | zero =>
    have hs : s = [] := List.length_eq_zero.mp (Nat.le_zero.mp h)
    subst hs
    cases p with
    | nil => simp at hp
    | cons a p => simp [trimLoop, HasPrefix, List.isPrefixOf]
  | succ k ih =>
    rw [trimLoop]
    split
    · next hpre =>
      apply ih
      have := trimPrefix_length_lt hpre hp
      omega
    · next hpre => simpa using hpre

/-! ## The type mapper -/

/-- C4: `toGoTypes` is the reference mapping at every nesting depth: `n` copies of
`"Array of "` in front of a token `b` that is not itself an array give `n` copies
of `"[]"` in front of the primitive-table image of `b`; one more `"Array of "`
in front of any string adds one `"[]"`; and `"Array of Array of Integer"` maps
to `"[][]int64"`. -/
theorem toGoTypes_reference_mapping (n : Nat) (b s : Str)
    (hb : HasPrefix b "Array of ".toList = false) :
    toGoTypes (repeatStr "Array of ".toList n ++ b) = refMapping n b
    ∧ toGoTypes ("Array of ".toList ++ s) = "[]".toList ++ toGoTypes s
    ∧ toGoTypes "Array of Array of Integer".toList = "[][]int64".toList :=
  ⟨toGoTypes_repeat n b hb, toGoTypes_array s, by decide⟩

theorem toGoTypes_reference_mapping_witness :
    HasPrefix "Integer".toList "Array of ".toList = false
    ∧ toGoTypes (repeatStr "Array of ".toList 2 ++ "Integer".toList)
        = refMapping 2 "Integer".toList
    ∧ toGoTypes ("Array of ".toList ++ "Array of Integer".toList)
        = "[]".toList ++ toGoTypes "Array of Integer".toList
    ∧ toGoTypes "Array of Array of Integer".toList = "[][]int64".toList :=
  ⟨by decide,
    toGoTypes_reference_mapping 2 "Integer".toList "Array of Integer".toList (by decide)⟩

/-! ## Record declarations -/

theorem star_ne (g : Str) : "*".toList ++ g ≠ g := by
  intro h
  have := congrArg List.length h
  simp at this

theorem memberType_eq (d : APIDescription) (f : TypeFields) (t : Str) (ts : List Str)
    (ht : f.Types = t :: ts) :
    memberType d f = some
      (if isTgType d.Types (toGoTypes t) && HasPrefix f.Description "Optional.".toList
        then "*".toList ++ toGoTypes t else toGoTypes t) := by
  simp only [memberType, index0, ht, List.head?_cons, Option.map_some', Option.bind_eq_bind,
    Option.some_bind]
  split <;> rfl

theorem generateTypeDef_field (L : Lib) (d : APIDescription) (n : Str)
    (pre post : List TypeFields) (f : TypeFields) (ty : Str)
    (hf : (mapGet zeroType d.Types n).Fields = pre ++ f :: post)
    (hty : memberType d f = some ty) :
    generateTypeDef L d n = (do
      let before ← pre.mapM (fieldDef L d)
      let after ← post.mapM (fieldDef L d)
      pure (((mapGet zeroType d.Types n).Description.map (fun x => "\n// ".toList ++ x)).flatten
        ++ "\ntype ".toList ++ n ++ " struct \x7b".toList
        ++ (before.flatten ++ ("\n// ".toList ++ f.Description ++ memberLine L f ty)
          ++ after.flatten)
        ++ "\n\x7d".toList)) := by
  simp only [generateTypeDef, hf, List.mapM_append, List.mapM_cons, fieldDef, hty]
  cases pre.mapM (fieldDef L d) <;> cases post.mapM (fieldDef L d) <;> simp [fieldDef]

/-- C1: in the declaration `generateTypeDef d n`, a field `f` of the type `n` whose
first alternative is `t` gets, after its comment line, the member line carrying
the type `ty`, where `ty` is `"*" ++ toGoTypes t` exactly when `toGoTypes t` is a key
of `d.Types` and the description of `f` starts with `"Optional."`, and `ty` is
`toGoTypes t` in every other case; the text for `f` stands between the texts of
the fields before and after it. -/
theorem optional_wrapping_rule (L : Lib) (d : APIDescription) (n : Str)
    (pre post : List TypeFields) (f : TypeFields) (t : Str) (ts : List Str)
    (hf : (mapGet zeroType d.Types n).Fields = pre ++ f :: post)
    (ht : f.Types = t :: ts) :
    ∃ ty : Str,
      (ty = "*".toList ++ toGoTypes t ↔
        (toGoTypes t ∈ d.Types.map Prod.fst
          ∧ HasPrefix f.Description "Optional.".toList = true))
      ∧ (¬ (toGoTypes t ∈ d.Types.map Prod.fst
          ∧ HasPrefix f.Description "Optional.".toList = true) → ty = toGoTypes t)
      ∧ memberType d f = some ty
      ∧ generateTypeDef L d n = (do
          let before ← pre.mapM (fieldDef L d)
          let after ← post.mapM (fieldDef L d)
          pure (((mapGet zeroType d.Types n).Description.map
              (fun x => "\n// ".toList ++ x)).flatten
            ++ "\ntype ".toList ++ n ++ " struct \x7b".toList
            ++ (before.flatten ++ ("\n// ".toList ++ f.Description ++ memberLine L f ty)
              ++ after.flatten)
            ++ "\n\x7d".toList)) := by
  rw [← isTgType_iff]
  refine ⟨_, ?_, ?_, memberType_eq d f t ts ht, ?_⟩
  · by_cases hc : isTgType d.Types (toGoTypes t) = true
      ∧ HasPrefix f.Description "Optional.".toList = true
    · simp [hc.1, hc.2]
    · have : (isTgType d.Types (toGoTypes t) && HasPrefix f.Description "Optional.".toList)
          = false := by
        simpa using hc
      rw [this]
      simp only [Bool.false_eq_true, if_false]
      exact ⟨fun h => absurd h.symm (star_ne _), fun h => absurd h hc⟩
  · intro hc
    have : (isTgType d.Types (toGoTypes t) && HasPrefix f.Description "Optional.".toList)
        = false := by
      simpa using hc
    rw [this]
    rfl
  · exact generateTypeDef_field L d n pre post f _ hf (memberType_eq d f t ts ht)

theorem optional_wrapping_rule_witness :
    (mapGet zeroType sampleAPI.Types "Message".toList).Fields
      = [idField] ++ replyField :: [photoField]
    ∧ replyField.Types = "Message".toList :: []
    ∧ ∃ ty : Str,
      (ty = "*".toList ++ toGoTypes "Message".toList ↔
        (toGoTypes "Message".toList ∈ sampleAPI.Types.map Prod.fst
          ∧ HasPrefix replyField.Description "Optional.".toList = true))
      ∧ (¬ (toGoTypes "Message".toList ∈ sampleAPI.Types.map Prod.fst
          ∧ HasPrefix replyField.Description "Optional.".toList = true)
          → ty = toGoTypes "Message".toList)
      ∧ memberType sampleAPI replyField = some ty
      ∧ generateTypeDef asciiLib sampleAPI "Message".toList = (do
          let before ← [idField].mapM (fieldDef asciiLib sampleAPI)
          let after ← [photoField].mapM (fieldDef asciiLib sampleAPI)
          pure (((mapGet zeroType sampleAPI.Types "Message".toList).Description.map
              (fun x => "\n// ".toList ++ x)).flatten
            ++ "\ntype ".toList ++ "Message".toList ++ " struct \x7b".toList
            ++ (before.flatten
              ++ ("\n// ".toList ++ replyField.Description ++ memberLine asciiLib replyField ty)
              ++ after.flatten)
            ++ "\n\x7d".toList)) :=
  ⟨by decide, rfl,
    optional_wrapping_rule asciiLib sampleAPI "Message".toList [idField] [photoField]
      replyField "Message".toList [] (by decide) rfl⟩

theorem toGoTypes_array_brackets (t : Str) (h : HasPrefix t "Array of ".toList = true) :
    HasPrefix (toGoTypes t) "[]".toList = true := by
  rw [hasPrefix_split h, toGoTypes_array]
  exact hasPrefix_append _ _

/-- C2, as stated, fails: in a schema that declares a type named `[]Foo`, the
field `foos` of first alternative `"Array of Foo"` and description
`"Optional. List"` gets the member type `*[]Foo`. -/
theorem array_field_wrapped_counterexample :
    HasPrefix "Array of Foo".toList "Array of ".toList = true
    ∧ toGoTypes "Array of Foo".toList = "[]Foo".toList
    ∧ memberType bracketAPI foosField = some "*[]Foo".toList
    ∧ generateTypeDef asciiLib bracketAPI "Bar".toList = some
        "\ntype Bar struct \x7b\n// Optional. List\nFoos *[]Foo `json:\"foos\"`\n\x7d".toList
    ∧ ¬ ∀ (d : APIDescription) (f : TypeFields) (t : Str) (ts : List Str),
        f.Types = t :: ts → HasPrefix t "Array of ".toList = true →
        memberType d f = some (toGoTypes t) := by
  refine ⟨by decide, by decide, by decide, by decide, ?_⟩
  intro h
  have := h bracketAPI foosField "Array of Foo".toList [] rfl (by decide)
  revert this
  decide

/-- C2, amended: in a schema none of whose declared type names starts with `"[]"`,
a field of the type `n` whose first alternative starts with `"Array of "` is
never wrapped: its member type is exactly `toGoTypes` of that alternative, which
starts with `"[]"` and so carries no leading `"*"`, whatever its description. -/
theorem array_field_never_wrapped (L : Lib) (d : APIDescription) (n : Str)
    (pre post : List TypeFields) (f : TypeFields) (t : Str) (ts : List Str)
    (hd : ∀ k ∈ d.Types.map Prod.fst, HasPrefix k "[]".toList = false)
    (hf : (mapGet zeroType d.Types n).Fields = pre ++ f :: post)
    (ht : f.Types = t :: ts)
    (ha : HasPrefix t "Array of ".toList = true) :
    memberType d f = some (toGoTypes t)
    ∧ HasPrefix (toGoTypes t) "[]".toList = true
    ∧ HasPrefix (toGoTypes t) "*".toList = false
    ∧ generateTypeDef L d n = (do
        let before ← pre.mapM (fieldDef L d)
        let after ← post.mapM (fieldDef L d)
        pure (((mapGet zeroType d.Types n).Description.map
            (fun x => "\n// ".toList ++ x)).flatten
          ++ "\ntype ".toList ++ n ++ " struct \x7b".toList
          ++ (before.flatten
            ++ ("\n// ".toList ++ f.Description ++ memberLine L f (toGoTypes t))
            ++ after.flatten)
          ++ "\n\x7d".toList)) := by
  have hb := toGoTypes_array_brackets t ha
  have hnot : isTgType d.Types (toGoTypes t) = false := by
    cases hk : isTgType d.Types (toGoTypes t) with
    | false => rfl
    | true =>
      have := hd _ (lookup_isSome_mem _ _ hk)
      rw [hb] at this
      exact absurd this (by decide)
  have hm : memberType d f = some (toGoTypes t) := by
    rw [memberType_eq d f t ts ht, hnot]
    rfl
  refine ⟨hm, hb, ?_, generateTypeDef_field L d n pre post f _ hf hm⟩
  rw [hasPrefix_split hb]
  rfl

theorem array_field_never_wrapped_witness :
    (∀ k ∈ sampleAPI.Types.map Prod.fst, HasPrefix k "[]".toList = false)
    ∧ (mapGet zeroType sampleAPI.Types "Message".toList).Fields
        = [idField, replyField] ++ photoField :: []
    ∧ photoField.Types = "Array of PhotoSize".toList :: []
    ∧ HasPrefix "Array of PhotoSize".toList "Array of ".toList = true
    ∧ memberType sampleAPI photoField = some (toGoTypes "Array of PhotoSize".toList)
    ∧ HasPrefix (toGoTypes "Array of PhotoSize".toList) "[]".toList = true
    ∧ HasPrefix (toGoTypes "Array of PhotoSize".toList) "*".toList = false
    ∧ generateTypeDef asciiLib sampleAPI "Message".toList = (do
        let before ← [idField, replyField].mapM (fieldDef asciiLib sampleAPI)
        let after ← ([] : List TypeFields).mapM (fieldDef asciiLib sampleAPI)
        pure (((mapGet zeroType sampleAPI.Types "Message".toList).Description.map
            (fun x => "\n// ".toList ++ x)).flatten
          ++ "\ntype ".toList ++ "Message".toList ++ " struct \x7b".toList
          ++ (before.flatten
            ++ ("\n// ".toList ++ photoField.Description
              ++ memberLine asciiLib photoField (toGoTypes "Array of PhotoSize".toList))
            ++ after.flatten)
          ++ "\n\x7d".toList)) :=
  ⟨by decide, by decide, rfl, by decide,
    array_field_never_wrapped asciiLib sampleAPI "Message".toList [idField, replyField] []
      photoField "Array of PhotoSize".toList [] (by decide) (by decide) rfl (by decide)⟩

/-! ## Parameter lists -/

theorem snakeToCamel_eq (L : Lib) (s : Str) (h : snakeToTitle L s ≠ []) :
    snakeToCamel L s = some (camelOf L s) := by
  have : ¬ (snakeToTitle L s).length < 1 := by
    cases hs : snakeToTitle L s with
    | nil => exact absurd hs h
    | cons a l => simp
  simp [snakeToCamel, camelOf, this]

theorem snakeToCamel_none (L : Lib) (s : Str) (h : snakeToTitle L s = []) :
    snakeToCamel L s = none := by
  simp [snakeToCamel, h]

theorem argsLoop_eq (L : Lib) (fs : List MethodFields) (req opt : List Str)
    (hT : ∀ f ∈ fs, f.Types ≠ [])
    (hC : ∀ f ∈ fs, isRequiredField f = true → snakeToTitle L f.Parameter ≠ []) :
    argsLoop L fs req opt = some (req ++ requiredEntries L fs, opt ++ optionalEntries L fs) := by
  induction fs generalizing req opt with
  | nil => simp [argsLoop, requiredEntries, optionalEntries]
  | cons f fs ih =>
    have hT' : ∀ g ∈ fs, g.Types ≠ [] := fun g hg => hT g (List.mem_cons_of_mem _ hg)
    have hC' : ∀ g ∈ fs, isRequiredField g = true → snakeToTitle L g.Parameter ≠ [] :=
      fun g hg => hC g (List.mem_cons_of_mem _ hg)
    obtain ⟨t, ts, hts⟩ : ∃ t ts, f.Types = t :: ts := by
      cases h : f.Types with
      | nil => exact absurd h (hT f (List.mem_cons_self _ _))
      | cons t ts => exact ⟨t, ts, rfl⟩
    by_cases hr : isRequiredField f = true
    · have hc := snakeToCamel_eq L f.Parameter (hC f (List.mem_cons_self _ _) hr)
      simp only [argsLoop, hr, if_true, hc, index0, hts, List.head?_cons, Option.bind_eq_bind,
        Option.some_bind]
      rw [ih _ _ hT' hC']
      simp [requiredEntries, optionalEntries, hr, firstType, hts]
    · have hr' : isRequiredField f = false := by simpa using hr
      simp only [argsLoop, hr', Bool.false_eq_true, if_false, index0, hts, List.head?_cons,
        Option.bind_eq_bind, Option.some_bind]
      rw [ih _ _ hT' hC']
      simp [requiredEntries, optionalEntries, hr', firstType, hts]

/-- The parameter partition: when every field has a type alternative and the title
form of every required parameter is not empty, `getArgs` returns the joined
required entries, followed by one `opts` entry exactly when some field is not
required, and the options struct listing the fields that are not required. -/
theorem getArgs_partition (L : Lib) (name : Str) (m : MethodDescription)
    (hT : ∀ f ∈ m.Fields, f.Types ≠ [])
    (hC : ∀ f ∈ m.Fields, isRequiredField f = true → snakeToTitle L f.Parameter ≠ []) :
    getArgs L name m = some
      (Join (requiredEntries L m.Fields
          ++ (if optionalEntries L m.Fields = [] then []
              else ["opts ".toList ++ (snakeToTitle L name ++ "Opts".toList)])) ", ".toList,
       if optionalEntries L m.Fields = [] then []
       else "\ntype ".toList ++ (snakeToTitle L name ++ "Opts".toList) ++ " struct \x7b".toList
          ++ ((optionalEntries L m.Fields).map (fun opt => "\n".toList ++ opt)).flatten
          ++ "\n\x7d".toList) := by
  simp only [getArgs, argsLoop_eq L m.Fields [] [] hT hC, Option.bind_eq_bind, Option.some_bind,
    List.nil_append]
  cases ho : optionalEntries L m.Fields with
  | nil => simp
  | cons a l => simp

/-- C3 at the failing input: the method `underscoreMethod` has one required field,
with a type alternative and the non-empty parameter name `_`; the title form of
`_` is empty, `snakeToCamel` panics on it and so does `getArgs`. -/
theorem getArgs_underscore_panics :
    (∀ f ∈ underscoreMethod.Fields, f.Types ≠ [] ∧ f.Parameter ≠ [])
    ∧ snakeToTitle asciiLib "_".toList = []
    ∧ snakeToCamel asciiLib "_".toList = none
    ∧ getArgs asciiLib "getNumber".toList underscoreMethod = none := by
  decide

/-! ## Request values -/

theorem input_eq : "Input".toList = ['I', 'n', 'p', 'u', 't'] := rfl

theorem converter_of_brackets (g : Str) (h : HasPrefix g "[]".toList = true) :
    goTypeToString g = [] := by
  rw [hasPrefix_split h]
  simp [goTypeToString]

theorem converter_of_input (t : Str) (h : HasPrefix t "Input".toList = true) :
    goTypeToString (toGoTypes t) = [] := by
  have ht := hasPrefix_split h
  have hna : HasPrefix t "Array of ".toList = false := by
    rw [ht]
    simp [HasPrefix, List.isPrefixOf]
  rw [toGoTypes_base t hna, ht]
  simp [baseType, goTypeToString]

theorem input_not_array (t : Str) (h : HasPrefix t "Array of ".toList = true) :
    HasPrefix t "Input".toList = false := by
  rw [hasPrefix_split h]
  simp [HasPrefix, List.isPrefixOf]

theorem argToValues_unfold (L : Lib) (f : MethodFields) (dflt t camel : Str) (ts : List Str)
    (ht : f.Types = t :: ts) (hc : snakeToCamel L f.Parameter = some camel) :
    argToValues L f dflt =
      if goTypeToString (toGoTypes t) = [] then
        if HasPrefix t "Input".toList = true then some []
        else some
          ((if HasPrefix t "Array of ".toList = true then
              "\nif ".toList
                ++ (if isRequiredField f then camel
                    else "opts.".toList ++ snakeToTitle L f.Parameter)
                ++ " != nil \x7b".toList
            else [])
          ++ marshalBlock f
              (if isRequiredField f then camel else "opts.".toList ++ snakeToTitle L f.Parameter)
              (camel ++ "Bs".toList) dflt
          ++ (if HasPrefix t "Array of ".toList = true then "\n\x7d".toList else []))
      else some ("\nv.Add(\"".toList ++ f.Parameter ++ "\", ".toList
          ++ Sprintf1 (goTypeToString (toGoTypes t))
              (if isRequiredField f then camel
                else "opts.".toList ++ snakeToTitle L f.Parameter)
          ++ ")".toList) := by
  simp only [argToValues, hc, index0, ht, List.head?_cons, Option.bind_eq_bind, Option.some_bind]
  cases isRequiredField f <;> rfl

/-- The text written for an upload field is empty, as soon as `snakeToCamel`
returns on its parameter name. -/
theorem argToValues_input (L : Lib) (f : MethodFields) (dflt : Str)
    (hi : isInputField f = true) (hc : snakeToTitle L f.Parameter ≠ []) :
    argToValues L f dflt = some [] := by
  cases hts : f.Types with
  | nil => simp [isInputField, hts] at hi
  | cons t ts =>
    simp only [isInputField, hts] at hi
    rw [argToValues_unfold L f dflt t _ ts hts (snakeToCamel_eq L f.Parameter hc),
      if_pos (converter_of_input t hi), if_pos hi]

theorem methodArgsToValues_eq (L : Lib) (m : MethodDescription) (dflt : Str) :
    methodArgsToValues L m dflt
      = (m.Fields.mapM (fun f => argToValues L f dflt)).map List.flatten := by
  simp only [methodArgsToValues]
  cases List.mapM (fun f => argToValues L f dflt) m.Fields <;> rfl

theorem mapM_values_skip (L : Lib) (dflt : Str) (fs : List MethodFields)
    (hc : ∀ f ∈ fs, isInputField f = true → snakeToTitle L f.Parameter ≠ []) :
    (fs.mapM (fun f => argToValues L f dflt)).map List.flatten
      = ((fs.filter (fun f => !isInputField f)).mapM
          (fun f => argToValues L f dflt)).map List.flatten := by
  induction fs with
  | nil => rfl
  | cons f fs ih =>
    have ih' := ih (fun g hg => hc g (List.mem_cons_of_mem _ hg))
    by_cases hi : isInputField f = true
    · have h0 := argToValues_input L f dflt hi (hc f (List.mem_cons_self _ _) hi)
      rw [List.filter_cons_of_neg (by simp [hi]), ← ih', List.mapM_cons, h0]
      cases List.mapM (fun f => argToValues L f dflt) fs <;> simp
    · rw [List.filter_cons_of_pos (by simp [hi]), List.mapM_cons, List.mapM_cons]
      cases argToValues L f dflt with
      | none => rfl
      | some txt =>
        revert ih'
        cases List.mapM (fun f => argToValues L f dflt) fs <;>
          cases List.mapM (fun f => argToValues L f dflt)
            (List.filter (fun f => !isInputField f) fs) <;>
          simp

/-- The upload-skip rule: when `snakeToCamel` returns on the parameter name of
every upload field, the method and the method without its upload fields give the
same text. -/
theorem methodArgsToValues_skip (L : Lib) (m : MethodDescription) (dflt : Str)
    (hc : ∀ f ∈ m.Fields, isInputField f = true → snakeToTitle L f.Parameter ≠ []) :
    methodArgsToValues L m dflt = methodArgsToValues L (dropInputFields m) dflt := by
  rw [methodArgsToValues_eq, methodArgsToValues_eq]
  exact mapM_values_skip L dflt m.Fields hc

/-- C5 at the failing input: `uploadMethod` has one field, with the type
alternative `"InputFile"` and the non-empty parameter name `_`; `methodArgsToValues`
panics on it (in `snakeToCamel`, before the skip is reached), while the method
without its upload fields gives the empty text. -/
theorem input_field_underscore_panics :
    (∀ f ∈ uploadMethod.Fields, f.Types ≠ [] ∧ f.Parameter ≠ [])
    ∧ (∀ f ∈ uploadMethod.Fields, isInputField f = true)
    ∧ (dropInputFields uploadMethod).Fields = []
    ∧ methodArgsToValues asciiLib uploadMethod "false".toList = none
    ∧ methodArgsToValues asciiLib (dropInputFields uploadMethod) "false".toList = some [] := by
  decide

/-- The text of a field in terms of the camel form of its parameter: when the
first alternative `t` starts with `"Array of "` it is the marshal block between
the opening line `if <goParam> != nil {` and the closing `}`; when it does not,
there is no guard. Without a camel form there is no text. -/
theorem array_guard_rule (L : Lib) (f : MethodFields) (dflt t : Str) (ts : List Str)
    (ht : f.Types = t :: ts) :
    (HasPrefix t "Array of ".toList = true →
      argToValues L f dflt = (snakeToCamel L f.Parameter).map (fun camel =>
        "\nif ".toList
          ++ (if isRequiredField f then camel else "opts.".toList ++ snakeToTitle L f.Parameter)
          ++ " != nil \x7b".toList
        ++ marshalBlock f
            (if isRequiredField f then camel else "opts.".toList ++ snakeToTitle L f.Parameter)
            (camel ++ "Bs".toList) dflt
        ++ "\n\x7d".toList))
    ∧ (HasPrefix t "Array of ".toList = false →
      argToValues L f dflt = (snakeToCamel L f.Parameter).map (fun camel =>
        if goTypeToString (toGoTypes t) = [] then
          if HasPrefix t "Input".toList then []
          else marshalBlock f
            (if isRequiredField f then camel else "opts.".toList ++ snakeToTitle L f.Parameter)
            (camel ++ "Bs".toList) dflt
        else "\nv.Add(\"".toList ++ f.Parameter ++ "\", ".toList
          ++ Sprintf1 (goTypeToString (toGoTypes t))
              (if isRequiredField f then camel
                else "opts.".toList ++ snakeToTitle L f.Parameter)
          ++ ")".toList)) := by
  constructor
  · intro ha
    have hconv := converter_of_brackets _ (toGoTypes_array_brackets t ha)
    have hin := input_not_array t ha
    cases hc : snakeToCamel L f.Parameter with
    | none => simp [argToValues, hc]
    | some camel =>
      rw [argToValues_unfold L f dflt t camel ts ht hc, if_pos hconv, hin, ha]
      simp
  · intro ha
    cases hc : snakeToCamel L f.Parameter with
    | none => simp [argToValues, hc]
    | some camel =>
      rw [argToValues_unfold L f dflt t camel ts ht hc, ha]
      by_cases hconv : goTypeToString (toGoTypes t) = []
      · rw [if_pos hconv, Option.map_some', if_pos hconv]
        cases HasPrefix t "Input".toList <;> simp
      · rw [if_neg hconv, Option.map_some', if_neg hconv]

theorem array_guard_rule_witness :
    entitiesField.Types = "Array of MessageEntity".toList :: []
    ∧ HasPrefix "Array of MessageEntity".toList "Array of ".toList = true
    ∧ argToValues asciiLib entitiesField "nil".toList = some entitiesText
    ∧ argToValues asciiLib entitiesField "nil".toList
      = (snakeToCamel asciiLib entitiesField.Parameter).map (fun camel =>
        "\nif ".toList
          ++ (if isRequiredField entitiesField then camel
              else "opts.".toList ++ snakeToTitle asciiLib entitiesField.Parameter)
          ++ " != nil \x7b".toList
        ++ marshalBlock entitiesField
            (if isRequiredField entitiesField then camel
              else "opts.".toList ++ snakeToTitle asciiLib entitiesField.Parameter)
            (camel ++ "Bs".toList) "nil".toList
        ++ "\n\x7d".toList) :=
  ⟨rfl, by decide, by rfl,
    (array_guard_rule asciiLib entitiesField "nil".toList "Array of MessageEntity".toList []
      rfl).1 (by decide)⟩

/-! ## Bindings -/

theorem generateMethodDef_eq (L : Lib) (d : APIDescription) (m : MethodDescription)
    (name retType : Str) (hr : methodRetType d m = some retType) :
    generateMethodDef L d m name = (do
      let ap ← getArgs L name m
      let values ← methodArgsToValues L m (getDefaultReturnVal retType)
      let decode ← decodeBlock L retType
      pure ((if ap.2 ≠ [] then "\n".toList ++ ap.2 else [])
        ++ (m.Description.map (fun x => "\n// ".toList ++ x)).flatten
        ++ ("\nfunc (bot Bot) ".toList ++ L.Title name ++ "(".toList ++ ap.1
          ++ ") (".toList ++ retType ++ ", error) \x7b".toList)
        ++ "\n\tv := urlLib.Values\x7b\x7d".toList ++ values
        ++ dispatchBlock name (getDefaultReturnVal retType) ++ decode)) := by
  simp only [generateMethodDef, hr, Option.bind_eq_bind, Option.some_bind]

/-- C7, as stated, fails: for `getMe`, whose return type `*Message` has the default
value `nil`, the generated binding ends with `return &m, json.Unmarshal(r, &m)`:
the return that carries the decode error has `&m` as its first result, not `nil`. -/
theorem decode_return_counterexample :
    methodRetType sampleAPI getMe = some "*Message".toList
    ∧ getDefaultReturnVal "*Message".toList = "nil".toList
    ∧ generateMethodDef asciiLib sampleAPI getMe "getMe".toList = some getMeText
    ∧ HasSuffix getMeText "\nreturn &m, json.Unmarshal(r, &m)\n\x7d".toList = true
    ∧ HasSuffix getMeText "\nreturn nil, json.Unmarshal(r, &m)\n\x7d".toList = false := by
  refine ⟨by decide, by decide, by rfl, by decide, by decide⟩

/-- C7, amended: the binding is the opening, the texts of the fields, the dispatch
statement whose error check returns the default value with `err`, the declaration
of the result variable `x` and the final return `return x, json.Unmarshal(r, &x)`
(`&x` for a pointer type), whose first result is the decoded variable; and a field
has a text exactly when it has a first alternative `t` and a camel form, the text
being then empty for an upload field, the one line `v.Add(...)` for a primitive,
and otherwise exactly the marshal block, whose only return is
`return <default>, fmt.Errorf(...)`, inside the nil guard when `t` is an array and
bare when it is not. -/
theorem failure_returns_rule (L : Lib) (d : APIDescription) (m : MethodDescription)
    (name : Str) :
    generateMethodDef L d m name = (do
      let retType ← methodRetType d m
      let ap ← getArgs L name m
      let values ← m.Fields.mapM (fun f => argToValues L f (getDefaultReturnVal retType))
      let x ← getRetVarName L retType
      pure ((if ap.2 ≠ [] then "\n".toList ++ ap.2 else [])
        ++ (m.Description.map (fun x => "\n// ".toList ++ x)).flatten
        ++ ("\nfunc (bot Bot) ".toList ++ L.Title name ++ "(".toList ++ ap.1
          ++ ") (".toList ++ retType ++ ", error) \x7b".toList)
        ++ "\n\tv := urlLib.Values\x7b\x7d".toList ++ values.flatten
        ++ ("\n".toList
          ++ "\nr, err := bot.Request(\"".toList ++ name ++ "\", v, nil)".toList
          ++ "\n\tif err != nil \x7b".toList
          ++ "\n\t\treturn ".toList ++ getDefaultReturnVal retType ++ ", err".toList
          ++ "\n\t\x7d".toList
          ++ "\n".toList)
        ++ ("\nvar ".toList ++ x ++ " ".toList
          ++ (if HasPrefix retType "*".toList then TrimLeft retType "*".toList else retType)
          ++ "\nreturn ".toList ++ (if HasPrefix retType "*".toList then "&".toList else [])
          ++ x ++ ", json.Unmarshal(r, &".toList ++ x ++ ")".toList
          ++ "\n\x7d".toList)))
    ∧ ∀ (f : MethodFields) (dflt txt : Str), argToValues L f dflt = some txt ↔
        ∃ (t : Str) (ts : List Str) (camel : Str),
          f.Types = t :: ts ∧ snakeToCamel L f.Parameter = some camel
          ∧ txt =
            if goTypeToString (toGoTypes t) = [] then
              if HasPrefix t "Input".toList = true then []
              else
                (if HasPrefix t "Array of ".toList = true then
                    "\nif ".toList
                      ++ (if isRequiredField f then camel
                          else "opts.".toList ++ snakeToTitle L f.Parameter)
                      ++ " != nil \x7b".toList
                  else [])
                ++ ("\n\t".toList ++ (camel ++ "Bs".toList) ++ ", err := json.Marshal(".toList
                    ++ (if isRequiredField f then camel
                        else "opts.".toList ++ snakeToTitle L f.Parameter)
                    ++ ")".toList
                  ++ "\n\tif err != nil \x7b".toList
                  ++ "\n\t\treturn ".toList ++ dflt
                    ++ ", fmt.Errorf(\"failed to marshal ".toList
                    ++ f.Parameter ++ ": %w\", err)".toList
                  ++ "\n\t\x7d".toList
                  ++ "\n\tv.Add(\"".toList ++ f.Parameter ++ "\", string(".toList
                    ++ (camel ++ "Bs".toList) ++ "))".toList)
                ++ (if HasPrefix t "Array of ".toList = true then "\n\x7d".toList else [])
            else
              "\nv.Add(\"".toList ++ f.Parameter ++ "\", ".toList
                ++ Sprintf1 (goTypeToString (toGoTypes t))
                    (if isRequiredField f then camel
                      else "opts.".toList ++ snakeToTitle L f.Parameter)
                ++ ")".toList := by
  constructor
  · cases hr : methodRetType d m with
    | none => simp [generateMethodDef, hr]
    | some retType =>
      rw [generateMethodDef_eq L d m name retType hr]
      simp only [methodArgsToValues, decodeBlock, dispatchBlock, Option.bind_eq_bind,
        Option.some_bind]
      cases getArgs L name m <;>
        cases List.mapM (fun f => argToValues L f (getDefaultReturnVal retType)) m.Fields <;>
        cases getRetVarName L retType <;> cases HasPrefix retType "*".toList <;> rfl
  · intro f dflt txt
    constructor
    · intro h
      cases hts : f.Types with
      | nil =>
        cases hc : snakeToCamel L f.Parameter <;> simp [argToValues, hc, index0, hts] at h
      | cons t ts =>
        cases hc : snakeToCamel L f.Parameter with
        | none => simp [argToValues, hc] at h
        | some camel =>
          rw [argToValues_unfold L f dflt t camel ts hts hc] at h
          refine ⟨t, ts, camel, rfl, rfl, ?_⟩
          by_cases hconv : goTypeToString (toGoTypes t) = []
          · rw [if_pos hconv] at h ⊢
            by_cases hin : HasPrefix t "Input".toList = true
            · rw [if_pos hin] at h ⊢
              exact (Option.some.inj h).symm
            · rw [if_neg hin] at h ⊢
              exact (Option.some.inj h).symm
          · rw [if_neg hconv] at h ⊢
            exact (Option.some.inj h).symm
    · rintro ⟨t, ts, camel, hts, hc, rfl⟩
      rw [argToValues_unfold L f dflt t camel ts hts hc]
      by_cases hconv : goTypeToString (toGoTypes t) = []
      · rw [if_pos hconv, if_pos hconv]
        by_cases hin : HasPrefix t "Input".toList = true
        · rw [if_pos hin, if_pos hin]
        · rw [if_neg hin, if_neg hin]
          rfl
      · rw [if_neg hconv, if_neg hconv]

theorem failure_returns_rule_witness :
    argToValues asciiLib entitiesField "nil".toList = some entitiesText
    ∧ ∃ (t : Str) (ts : List Str) (camel : Str),
        entitiesField.Types = t :: ts
        ∧ snakeToCamel asciiLib entitiesField.Parameter = some camel
        ∧ entitiesText =
          if goTypeToString (toGoTypes t) = [] then
            if HasPrefix t "Input".toList = true then []
            else
              (if HasPrefix t "Array of ".toList = true then
                  "\nif ".toList
                    ++ (if isRequiredField entitiesField then camel
                        else "opts.".toList ++ snakeToTitle asciiLib entitiesField.Parameter)
                    ++ " != nil \x7b".toList
                else [])
              ++ ("\n\t".toList ++ (camel ++ "Bs".toList) ++ ", err := json.Marshal(".toList
                  ++ (if isRequiredField entitiesField then camel
                      else "opts.".toList ++ snakeToTitle asciiLib entitiesField.Parameter)
                  ++ ")".toList
                ++ "\n\tif err != nil \x7b".toList
                ++ "\n\t\treturn ".toList ++ "nil".toList
                  ++ ", fmt.Errorf(\"failed to marshal ".toList
                  ++ entitiesField.Parameter ++ ": %w\", err)".toList
                ++ "\n\t\x7d".toList
                ++ "\n\tv.Add(\"".toList ++ entitiesField.Parameter ++ "\", string(".toList
                  ++ (camel ++ "Bs".toList) ++ "))".toList)
              ++ (if HasPrefix t "Array of ".toList = true then "\n\x7d".toList else [])
          else
            "\nv.Add(\"".toList ++ entitiesField.Parameter ++ "\", ".toList
              ++ Sprintf1 (goTypeToString (toGoTypes t))
                  (if isRequiredField entitiesField then camel
                    else "opts.".toList ++ snakeToTitle asciiLib entitiesField.Parameter)
              ++ ")".toList :=
  ⟨by rfl,
    ((failure_returns_rule asciiLib sampleAPI sendMessage "sendMessage".toList).2
      entitiesField "nil".toList entitiesText).mp (by rfl)⟩

theorem default_of_indirect (s : Str)
    (hs : HasPrefix s "*".toList = true ∨ HasPrefix s "[]".toList = true) :
    getDefaultReturnVal s = "nil".toList := by
  have : (HasPrefix s "*".toList || HasPrefix s "[]".toList) = true := by
    rcases hs with h | h <;> rw [h]
    · rfl
    · exact Bool.or_true _
  simp only [getDefaultReturnVal, this, if_true]

/-- C8: `getDefaultReturnVal` gives `0` for `int64`, `0.0` for `float64`, `false`
for `bool`, the empty string literal for `string` and `nil` for every type
expression that starts with `*` or with `[]`; and when the mapped return type of
a method is one of the four primitives, starts with `[]` or is a declared type
name, the default value that `generateMethodDef` passes to the field texts and to
the dispatch block is one of these five values. -/
theorem default_value_table (L : Lib) (d : APIDescription) (m : MethodDescription)
    (name s r : Str) (rs : List Str)
    (hs : HasPrefix s "*".toList = true ∨ HasPrefix s "[]".toList = true)
    (hr : m.Returns = r :: rs)
    (hg : toGoTypes r ∈ ["int64".toList, "float64".toList, "bool".toList, "string".toList]
      ∨ HasPrefix (toGoTypes r) "[]".toList = true
      ∨ toGoTypes r ∈ d.Types.map Prod.fst) :
    getDefaultReturnVal "int64".toList = "0".toList
    ∧ getDefaultReturnVal "float64".toList = "0.0".toList
    ∧ getDefaultReturnVal "bool".toList = "false".toList
    ∧ getDefaultReturnVal "string".toList = "\"\"".toList
    ∧ getDefaultReturnVal s = "nil".toList
    ∧ ∃ retType dv : Str,
        methodRetType d m = some retType
        ∧ (toGoTypes r ∈ d.Types.map Prod.fst → retType = "*".toList ++ toGoTypes r)
        ∧ dv = getDefaultReturnVal retType
        ∧ dv ∈ ["0".toList, "0.0".toList, "false".toList, "\"\"".toList, "nil".toList]
        ∧ generateMethodDef L d m name = (do
            let ap ← getArgs L name m
            let values ← methodArgsToValues L m dv
            let decode ← decodeBlock L retType
            pure ((if ap.2 ≠ [] then "\n".toList ++ ap.2 else [])
              ++ (m.Description.map (fun x => "\n// ".toList ++ x)).flatten
              ++ ("\nfunc (bot Bot) ".toList ++ L.Title name ++ "(".toList ++ ap.1
                ++ ") (".toList ++ retType ++ ", error) \x7b".toList)
              ++ "\n\tv := urlLib.Values\x7b\x7d".toList ++ values
              ++ dispatchBlock name dv ++ decode)) := by
  rw [← isTgType_iff] at hg ⊢
  refine ⟨by decide, by decide, by decide, by decide, default_of_indirect s hs, ?_⟩
  have hret : methodRetType d m
      = some (if isTgType d.Types (toGoTypes r) then "*".toList ++ toGoTypes r
          else toGoTypes r) := by
    simp [methodRetType, index0, hr]
  refine ⟨_, _, hret, ?_, rfl, ?_, generateMethodDef_eq L d m name _ hret⟩
  · intro h
    simp [h]
  · by_cases ht : isTgType d.Types (toGoTypes r) = true
    · rw [if_pos ht, default_of_indirect _ (Or.inl (hasPrefix_append _ _))]
      decide
    · rw [if_neg ht]
      rcases hg with h | h | h
      · simp only [List.mem_cons, List.mem_singleton, List.not_mem_nil, or_false] at h
        rcases h with h | h | h | h <;> rw [h] <;> decide
      · rw [default_of_indirect _ (Or.inr h)]
        decide
      · exact absurd h ht

theorem default_value_table_witness :
    (HasPrefix "[]int64".toList "*".toList = true ∨ HasPrefix "[]int64".toList "[]".toList = true)
    ∧ getMe.Returns = "Message".toList :: []
    ∧ (toGoTypes "Message".toList
          ∈ ["int64".toList, "float64".toList, "bool".toList, "string".toList]
        ∨ HasPrefix (toGoTypes "Message".toList) "[]".toList = true
        ∨ toGoTypes "Message".toList ∈ sampleAPI.Types.map Prod.fst)
    ∧ getDefaultReturnVal "int64".toList = "0".toList
    ∧ getDefaultReturnVal "float64".toList = "0.0".toList
    ∧ getDefaultReturnVal "bool".toList = "false".toList
    ∧ getDefaultReturnVal "string".toList = "\"\"".toList
    ∧ getDefaultReturnVal "[]int64".toList = "nil".toList
    ∧ ∃ retType dv : Str,
        methodRetType sampleAPI getMe = some retType
        ∧ (toGoTypes "Message".toList ∈ sampleAPI.Types.map Prod.fst
            → retType = "*".toList ++ toGoTypes "Message".toList)
        ∧ dv = getDefaultReturnVal retType
        ∧ dv ∈ ["0".toList, "0.0".toList, "false".toList, "\"\"".toList, "nil".toList]
        ∧ generateMethodDef asciiLib sampleAPI getMe "getMe".toList = (do
            let ap ← getArgs asciiLib "getMe".toList getMe
            let values ← methodArgsToValues asciiLib getMe dv
            let decode ← decodeBlock asciiLib retType
            pure ((if ap.2 ≠ [] then "\n".toList ++ ap.2 else [])
              ++ (getMe.Description.map (fun x => "\n// ".toList ++ x)).flatten
              ++ ("\nfunc (bot Bot) ".toList ++ asciiLib.Title "getMe".toList ++ "(".toList
                ++ ap.1 ++ ") (".toList ++ retType ++ ", error) \x7b".toList)
              ++ "\n\tv := urlLib.Values\x7b\x7d".toList ++ values
              ++ dispatchBlock "getMe".toList dv ++ decode)) :=
  ⟨Or.inr (by decide), rfl, Or.inr (Or.inr (by decide)),
    default_value_table asciiLib sampleAPI getMe "getMe".toList "[]int64".toList
      "Message".toList [] (Or.inr (by decide)) rfl (Or.inr (Or.inr (by decide)))⟩

/-! ## Generation units -/

theorem lookup_eq_some_iff {V : Type} (m : List (Str × V)) (nd : NodupKeys m) (k : Str) (v : V) :
    m.lookup k = some v ↔ (k, v) ∈ m := by
  induction m with
  | nil => simp
  | cons p m ih =>
    obtain ⟨a, b⟩ := p
    have hnd : a ∉ m.map Prod.fst ∧ NodupKeys m := List.nodup_cons.mp nd
    by_cases hk : k = a
    · subst hk
      have hno : (k, v) ∉ m := fun h => hnd.1 (List.mem_map_of_mem Prod.fst h)
      simp only [List.lookup, beq_self_eq_true, List.mem_cons, Prod.mk.injEq, true_and, hno,
        or_false, Option.some.injEq]
      exact eq_comm
    · have hb : (k == a) = false := by simpa using hk
      simp only [List.lookup, hb, List.mem_cons, Prod.mk.injEq, hk, false_and, false_or]
      exact ih hnd.2

theorem lookup_perm {V : Type} {m m' : List (Str × V)} (p : m'.Perm m) (nd : NodupKeys m)
    (k : Str) : m'.lookup k = m.lookup k := by
  have nd' : NodupKeys m' := (List.Perm.nodup_iff (p.map Prod.fst)).mpr nd
  apply Option.ext
  intro v
  rw [Option.mem_def, Option.mem_def, lookup_eq_some_iff m' nd', lookup_eq_some_iff m nd]
  exact p.mem_iff

theorem generateTypeDef_congr (L : Lib) (d d' : APIDescription)
    (h : ∀ k, d'.Types.lookup k = d.Types.lookup k) (n : Str) :
    generateTypeDef L d' n = generateTypeDef L d n := by
  have hf : fieldDef L d' = fieldDef L d := by
    funext f
    simp only [fieldDef, memberType, isTgType, h]
  simp only [generateTypeDef, mapGet, h, hf]

theorem generateMethodDef_congr (L : Lib) (d d' : APIDescription)
    (h : ∀ k, d'.Types.lookup k = d.Types.lookup k) (m : MethodDescription) (n : Str) :
    generateMethodDef L d' m n = generateMethodDef L d m n := by
  simp only [generateMethodDef, methodRetType, isTgType, h]

theorem sortStrings_sorted (l : List Str) (nd : l.Nodup) :
    List.Sorted (fun a b : Str => a < b) (sortStrings l) :=
  List.Sorted.lt_of_le (List.sorted_insertionSort (fun a b : Str => a ≤ b) l)
    ((List.perm_insertionSort (fun a b : Str => a ≤ b) l).nodup_iff.mpr nd)

theorem sortStrings_perm_eq {l l' : List Str} (p : l'.Perm l) :
    sortStrings l' = sortStrings l :=
  List.eq_of_perm_of_sorted (r := fun a b : Str => a ≤ b)
    (((List.perm_insertionSort _ l').trans p).trans (List.perm_insertionSort _ l).symm)
    (List.sorted_insertionSort _ l') (List.sorted_insertionSort _ l)

theorem writeAt_empty (b : Str) : WriteAt [] b 0 = b := by
  simp [WriteAt]

theorem writeAt_zero (content b : Str) : WriteAt content b 0 = b ++ content.drop b.length := by
  simp [WriteAt]

/-- What a successful run of `writeGenToFile` leaves in the file: the formatted
text followed by the bytes of the raw text beyond the length of the formatted
text. -/
theorem writeGenToFile_content (sys : Sys) (format : Str → Option Str) (prior : Option Str)
    (file : Str) (c : Option Str) (h : writeGenToFile sys format prior file = (none, c)) :
    ∃ fmted, format file = some fmted ∧ c = some (fmted ++ file.drop fmted.length) := by
  unfold writeGenToFile at h
  cases ho : sys.openOk <;> simp only [ho, Bool.not_true, Bool.not_false, if_true, if_false,
    Bool.false_eq_true] at h
  · simp at h
  · cases h1 : sys.firstWriteOk <;> simp only [h1, Bool.not_true, Bool.not_false, if_true,
      if_false, Bool.false_eq_true] at h
    · simp at h
    · cases hf : format file with
      | none => simp [hf] at h
      | some fmted =>
        simp only [hf] at h
        cases h2 : sys.secondWriteOk <;> simp only [h2, Bool.not_true, Bool.not_false, if_true,
          if_false, Bool.false_eq_true] at h
        · simp at h
        · refine ⟨fmted, rfl, ?_⟩
          have := (Prod.mk.inj h).2
          rw [writeAt_empty, writeAt_zero] at this
          exact this.symm

/-- A successful run leaves exactly the formatted text if and only if the raw text
is not longer than the formatted text. -/
theorem writeGenToFile_exact_iff (sys : Sys) (format : Str → Option Str) (prior : Option Str)
    (file fmted : Str) (c : Option Str) (h : writeGenToFile sys format prior file = (none, c))
    (hf : format file = some fmted) :
    c = some fmted ↔ file.length ≤ fmted.length := by
  obtain ⟨g, hg, hc⟩ := writeGenToFile_content sys format prior file c h
  have : g = fmted := Option.some.inj (hg.symm.trans hf)
  subst this
  rw [hc]
  constructor
  · intro h1
    have h2 := congrArg List.length (Option.some.inj h1)
    simp only [List.length_append, List.length_drop] at h2
    omega
  · intro h1
    rw [List.drop_of_length_le h1, List.append_nil]

set_option maxRecDepth 10000 in
/-- C10 at the failing input: for the empty schema the raw text of the types unit
is the header; the formatted header is two bytes shorter; `writeGenToFile` returns
no error and the file holds the formatted text followed by the last two bytes of
the raw text. -/
theorem formatted_shorter_leaves_raw_tail :
    generateTypesText asciiLib emptyAPI = some typesHeader
    ∧ writeGenToFile ⟨true, true, true⟩ (fun _ => some formattedTypesHeader) none typesHeader
        = (none, some (formattedTypesHeader ++ "\n\n".toList))
    ∧ formattedTypesHeader ++ "\n\n".toList ≠ formattedTypesHeader := by
  refine ⟨by rfl, by rfl, ?_⟩
  intro h
  have := congrArg List.length h
  rw [List.length_append] at this
  exact absurd this (by simp)

/-! ## Identifier transformers -/

/-- C11 at the failing inputs: `snakeToTitle` is defined everywhere, but
`snakeToCamel` panics on the empty identifier and on `_`, whose title forms are
empty: the slice `title[:1]` is out of range. -/
theorem snakeToCamel_not_empty_safe :
    snakeToTitle asciiLib [] = []
    ∧ snakeToCamel asciiLib [] = none
    ∧ snakeToTitle asciiLib "_".toList = []
    ∧ snakeToCamel asciiLib "_".toList = none := by
  decide

theorem lowerAlnum_cases (P : Char → Prop) (c : Char) (h : isLowerAlnum c = true)
    (hl : ∀ n, 97 ≤ n → n ≤ 122 → P (Char.ofNat n))
    (hd : ∀ n, 48 ≤ n → n ≤ 57 → P (Char.ofNat n)) : P c := by
  have hc := Char.ofNat_toNat c
  rcases (Bool.or_eq_true _ _).mp h with h | h
  · have h1 : 97 ≤ c.toNat ∧ c.toNat ≤ 122 := by
      simpa [Char.isLower, Char.toNat, UInt32.le_def, Nat.le_antisymm_iff] using h
    rw [← hc]
    exact hl _ h1.1 h1.2
  · have h1 : 48 ≤ c.toNat ∧ c.toNat ≤ 57 := by
      simpa [Char.isDigit, Char.toNat, UInt32.le_def, Nat.le_antisymm_iff] using h
    rw [← hc]
    exact hd _ h1.1 h1.2

theorem lower_of_upper (c : Char) (h : isLowerAlnum c = true) : c.toUpper.toLower = c := by
  apply lowerAlnum_cases (fun c => c.toUpper.toLower = c) c h
  · intro n a b
    interval_cases n <;> rfl
  · intro n a b
    interval_cases n <;> rfl

theorem lowerAlnum_not_separator (c : Char) (h : isLowerAlnum c = true) :
    isSeparator c = false ∧ c ≠ '_' := by
  apply lowerAlnum_cases (fun c => isSeparator c = false ∧ c ≠ '_') c h
  · intro n a b
    interval_cases n <;> decide
  · intro n a b
    interval_cases n <;> decide

theorem titleGo_segment (prev : Char) (seg : Str) (hp : isSeparator prev = false)
    (hs : ∀ c ∈ seg, isLowerAlnum c = true) : titleGo prev seg = seg := by
  induction seg generalizing prev with
  | nil => rfl
  | cons r rs ih =>
    have hr := (lowerAlnum_not_separator r (hs r (List.mem_cons_self _ _))).1
    simp only [titleGo, hp, Bool.false_eq_true, if_false]
    rw [ih r hr (fun c hc => hs c (List.mem_cons_of_mem _ hc))]

theorem asciiTitle_segment (seg : Str) (hs : ∀ c ∈ seg, isLowerAlnum c = true) :
    asciiTitle seg = capitalize seg := by
  cases seg with
  | nil => rfl
  | cons r rs =>
    have hr := (lowerAlnum_not_separator r (hs r (List.mem_cons_self _ _))).1
    have hsp : isSeparator ' ' = true := by decide
    simp only [asciiTitle, titleGo, hsp, if_true, capitalize]
    rw [titleGo_segment r rs hr (fun c hc => hs c (List.mem_cons_of_mem _ hc))]

theorem splitGo_segment (sep : Char) (seg cur r : Str) (h : sep ∉ seg) :
    splitGo sep cur (seg ++ r) = splitGo sep (cur ++ seg) r := by
  induction seg generalizing cur with
  | nil => simp
  | cons c cs ih =>
    have hc : c ≠ sep := fun e => h (e ▸ List.mem_cons_self _ _)
    have hcs : sep ∉ cs := fun e => h (List.mem_cons_of_mem _ e)
    have step : splitGo sep cur (c :: (cs ++ r)) = splitGo sep (cur ++ [c]) (cs ++ r) := by
      simp only [splitGo, hc, if_false]
    rw [List.cons_append, step, ih (cur ++ [c]) hcs, List.append_assoc]
    rfl

/-- Splitting the join of segments that do not contain the separator gives the
segments back. -/
theorem split_join (sep : Char) (seg0 : Str) (rest : List Str)
    (h : ∀ seg ∈ seg0 :: rest, sep ∉ seg) :
    Split (Join (seg0 :: rest) [sep]) sep = seg0 :: rest := by
  induction rest generalizing seg0 with
  | nil =>
    have := splitGo_segment sep seg0 [] [] (h seg0 (List.mem_cons_self _ _))
    simpa [Split, Join, splitGo] using this
  | cons b rest ih =>
    have h0 := h seg0 (List.mem_cons_self _ _)
    have ih' := ih b (fun seg hseg => h seg (List.mem_cons_of_mem _ hseg))
    rw [Split] at ih'
    have hJ : Join (seg0 :: b :: rest) [sep] = seg0 ++ (sep :: Join (b :: rest) [sep]) := by
      simp [Join]
    have step : splitGo sep ([] ++ seg0) (sep :: Join (b :: rest) [sep])
        = ([] ++ seg0) :: splitGo sep [] (Join (b :: rest) [sep]) := by
      simp only [splitGo, if_true]
    rw [Split, hJ, splitGo_segment sep seg0 [] _ h0, step, List.nil_append, ih']

/-- C12: for a lower-snake-case identifier, the join with `_` of segments of
lowercase letters and digits whose first segment is not empty, `snakeToTitle` is
the concatenation of the segments, each with its first character upper-cased, and
`snakeToCamel` is that title with only its first character lower-cased; for a
single segment the title is the segment with its first character upper-cased and
the camel form is the segment itself; `chat_id` gives `ChatId` and `chatId`. -/
theorem snake_case_transformers (seg0 : Str) (rest : List Str) (h0 : seg0 ≠ [])
    (hs : ∀ seg ∈ seg0 :: rest, ∀ c ∈ seg, isLowerAlnum c = true) :
    Split (Join (seg0 :: rest) "_".toList) '_' = seg0 :: rest
    ∧ snakeToTitle asciiLib (Join (seg0 :: rest) "_".toList)
        = ((seg0 :: rest).map capitalize).flatten
    ∧ snakeToCamel asciiLib (Join (seg0 :: rest) "_".toList)
        = some (lowerFirst (((seg0 :: rest).map capitalize).flatten))
    ∧ snakeToTitle asciiLib seg0 = capitalize seg0
    ∧ snakeToCamel asciiLib seg0 = some seg0
    ∧ snakeToTitle asciiLib "chat_id".toList = "ChatId".toList
    ∧ snakeToCamel asciiLib "chat_id".toList = some "chatId".toList := by
  have hsep : ∀ seg ∈ seg0 :: rest, '_' ∉ seg := fun seg hseg hmem =>
    (lowerAlnum_not_separator '_' (hs seg hseg '_' hmem)).2 rfl
  have hsplit : Split (Join (seg0 :: rest) "_".toList) '_' = seg0 :: rest :=
    split_join '_' seg0 rest hsep
  have htitle : ∀ segs : List Str, (∀ seg ∈ segs, ∀ c ∈ seg, isLowerAlnum c = true) →
      segs.map asciiLib.Title = segs.map capitalize := fun segs hsegs =>
    List.map_congr_left (fun seg hseg => asciiTitle_segment seg (hsegs seg hseg))
  have hT : snakeToTitle asciiLib (Join (seg0 :: rest) "_".toList)
      = ((seg0 :: rest).map capitalize).flatten := by
    rw [snakeToTitle, hsplit, htitle _ hs]
  have hsplit1 : Split seg0 '_' = [seg0] :=
    split_join '_' seg0 [] (fun seg hseg => hsep seg (by
      rw [List.mem_singleton.mp hseg]
      exact List.mem_cons_self _ _))
  have hT1 : snakeToTitle asciiLib seg0 = capitalize seg0 := by
    rw [snakeToTitle, hsplit1, htitle [seg0] (fun seg hseg => hs seg (by
      rw [List.mem_singleton.mp hseg]
      exact List.mem_cons_self _ _))]
    simp
  obtain ⟨c, cs, rfl⟩ : ∃ c cs, seg0 = c :: cs := by
    cases seg0 with
    | nil => exact absurd rfl h0
    | cons c cs => exact ⟨c, cs, rfl⟩
  have hc := lower_of_upper c (hs _ (List.mem_cons_self _ _) c (List.mem_cons_self _ _))
  refine ⟨hsplit, hT, ?_, hT1, ?_, by decide, by decide⟩
  · simp only [snakeToCamel, hT]
    simp [capitalize, lowerFirst, asciiLib, asciiToLower]
  · simp only [snakeToCamel, hT1]
    simp [capitalize, asciiLib, asciiToLower, hc]

theorem snake_case_transformers_witness :
    "chat".toList ≠ []
    ∧ (∀ seg ∈ "chat".toList :: ["id".toList], ∀ c ∈ seg, isLowerAlnum c = true)
    ∧ Split (Join ("chat".toList :: ["id".toList]) "_".toList) '_'
        = "chat".toList :: ["id".toList]
    ∧ snakeToTitle asciiLib (Join ("chat".toList :: ["id".toList]) "_".toList)
        = (("chat".toList :: ["id".toList]).map capitalize).flatten
    ∧ snakeToCamel asciiLib (Join ("chat".toList :: ["id".toList]) "_".toList)
        = some (lowerFirst ((("chat".toList :: ["id".toList]).map capitalize).flatten))
    ∧ snakeToTitle asciiLib "chat".toList = capitalize "chat".toList
    ∧ snakeToCamel asciiLib "chat".toList = some "chat".toList
    ∧ snakeToTitle asciiLib "chat_id".toList = "ChatId".toList
    ∧ snakeToCamel asciiLib "chat_id".toList = some "chatId".toList :=
  ⟨by decide, by decide,
    snake_case_transformers "chat".toList ["id".toList] (by decide) (by decide)⟩

/-! ## Only the first alternative is read -/

theorem index0_firstOnly (ts : List Str) : index0 (firstOnly ts) = index0 ts := by
  cases ts <;> rfl

theorem lookup_map_snd {V W : Type} (g : V → W) (m : List (Str × V)) (k : Str) :
    (m.map (fun p => (p.1, g p.2))).lookup k = (m.lookup k).map g := by
  induction m with
  | nil => rfl
  | cons p m ih =>
    obtain ⟨a, b⟩ := p
    simp only [List.map_cons, List.lookup]
    cases k == a
    · exact ih
    · rfl

theorem mapM_map_eq {α β γ : Type} (g : α → β) (F : α → Option γ) (G : β → Option γ)
    (h : ∀ a, G (g a) = F a) (l : List α) : (l.map g).mapM G = l.mapM F := by
  induction l with
  | nil => rfl
  | cons a l ih => rw [List.map_cons, List.mapM_cons, List.mapM_cons, h a, ih]

theorem isTgType_narrow (d : APIDescription) (k : Str) :
    isTgType (narrowAPI d).Types k = isTgType d.Types k := by
  simp only [isTgType, narrowAPI, lookup_map_snd, Option.isSome_map']

theorem memberType_narrow (d : APIDescription) (f : TypeFields) :
    memberType (narrowAPI d) (narrowTypeField f) = memberType d f := by
  simp only [memberType, narrowTypeField, index0_firstOnly, isTgType_narrow]

theorem fieldDef_narrow (L : Lib) (d : APIDescription) (f : TypeFields) :
    fieldDef L (narrowAPI d) (narrowTypeField f) = fieldDef L d f := by
  simp only [fieldDef, memberType_narrow]
  rfl

theorem generateTypeDef_narrow (L : Lib) (d : APIDescription) (n : Str) :
    generateTypeDef L (narrowAPI d) n = generateTypeDef L d n := by
  have hget : mapGet zeroType (narrowAPI d).Types n = narrowType (mapGet zeroType d.Types n) := by
    simp only [mapGet, narrowAPI, lookup_map_snd]
    cases d.Types.lookup n <;> rfl
  simp only [generateTypeDef, hget, narrowType,
    mapM_map_eq narrowTypeField (fieldDef L d) (fieldDef L (narrowAPI d)) (fieldDef_narrow L d)]

theorem argsLoop_narrow (L : Lib) (fs : List MethodFields) (req opt : List Str) :
    argsLoop L (fs.map narrowMethodField) req opt = argsLoop L fs req opt := by
  induction fs generalizing req opt with
  | nil => rfl
  | cons f fs ih =>
    have hr : isRequiredField (narrowMethodField f) = isRequiredField f := rfl
    have hp : (narrowMethodField f).Parameter = f.Parameter := rfl
    have ht : index0 (narrowMethodField f).Types = index0 f.Types := index0_firstOnly f.Types
    simp only [List.map_cons, argsLoop, hr, hp, ht, ih]

theorem getArgs_narrow (L : Lib) (name : Str) (m : MethodDescription) :
    getArgs L name (narrowMethod m) = getArgs L name m := by
  simp only [getArgs, narrowMethod, argsLoop_narrow]

theorem argToValues_narrow (L : Lib) (f : MethodFields) (dflt : Str) :
    argToValues L (narrowMethodField f) dflt = argToValues L f dflt := by
  have hr : isRequiredField (narrowMethodField f) = isRequiredField f := rfl
  have hp : (narrowMethodField f).Parameter = f.Parameter := rfl
  have ht : index0 (narrowMethodField f).Types = index0 f.Types := index0_firstOnly f.Types
  have hm : ∀ a b c, marshalBlock (narrowMethodField f) a b c = marshalBlock f a b c :=
    fun _ _ _ => rfl
  simp only [argToValues, hr, hp, ht, hm]

theorem methodArgsToValues_narrow (L : Lib) (m : MethodDescription) (dflt : Str) :
    methodArgsToValues L (narrowMethod m) dflt = methodArgsToValues L m dflt := by
  simp only [methodArgsToValues, narrowMethod,
    mapM_map_eq narrowMethodField (fun f => argToValues L f dflt)
      (fun f => argToValues L f dflt) (fun f => argToValues_narrow L f dflt)]

theorem methodRetType_narrow (d : APIDescription) (m : MethodDescription) :
    methodRetType (narrowAPI d) (narrowMethod m) = methodRetType d m := by
  simp only [methodRetType, narrowMethod, index0_firstOnly, isTgType_narrow]

/-- C13: cutting every list of alternatives of the schema and of the method down to
its first element (for a non-empty list, the singleton of its first element)
changes none of the outputs of `generateTypeDef`, `getArgs`, `methodArgsToValues`
and `generateMethodDef`. -/
theorem first_alternative_only (L : Lib) (d : APIDescription) (m : MethodDescription)
    (n name dflt : Str) :
    (∀ (t : Str) (ts : List Str), firstOnly (t :: ts) = [t])
    ∧ generateTypeDef L (narrowAPI d) n = generateTypeDef L d n
    ∧ getArgs L name (narrowMethod m) = getArgs L name m
    ∧ methodArgsToValues L (narrowMethod m) dflt = methodArgsToValues L m dflt
    ∧ generateMethodDef L (narrowAPI d) (narrowMethod m) name = generateMethodDef L d m name := by
  refine ⟨fun _ _ => rfl, generateTypeDef_narrow L d n, getArgs_narrow L name m,
    methodArgsToValues_narrow L m dflt, ?_⟩
  have hd : (narrowMethod m).Description = m.Description := rfl
  simp only [generateMethodDef, methodRetType_narrow, getArgs_narrow, methodArgsToValues_narrow, hd]

/-! ## The scenario -/

set_option maxRecDepth 10000 in
/-- C14: in a schema that declares `Message`, the method `sendMessage` with the
required integer `chat_id`, the text `text` that is not required and the return
type `Message` gives the options struct `SendMessageOpts` with the single member
`Text string`, the documentation lines, and a binding that starts with the
signature `func (bot Bot) SendMessage(chatId int64, opts SendMessageOpts)
(*Message, error) {` and in which `return nil, err` stands before the only
`json.Unmarshal`. -/
theorem scenario_sendMessage (d : APIDescription) (req d1 d2 : Str) (docs : List Str)
    (hm : "Message".toList ∈ d.Types.map Prod.fst) (hreq : req ≠ "Yes".toList) :
    generateMethodDef asciiLib d (scenarioMethod req d1 d2 docs) "sendMessage".toList
      = some (scenarioOpts ++ (docs.map (fun x => "\n// ".toList ++ x)).flatten ++ scenarioBody)
    ∧ getArgs asciiLib "sendMessage".toList (scenarioMethod req d1 d2 docs)
      = some ("chatId int64, opts SendMessageOpts".toList,
          "\ntype SendMessageOpts struct \x7b\nText string\n\x7d".toList)
    ∧ HasPrefix scenarioBody scenarioSignature = true
    ∧ countOcc "json.Unmarshal".toList scenarioBody = 1
    ∧ countOcc "json.Unmarshal".toList scenarioOpts = 0
    ∧ indexOf "\n\tif err != nil \x7b\n\t\treturn nil, err\n\t\x7d".toList scenarioBody = some 224
    ∧ indexOf "json.Unmarshal".toList scenarioBody = some 289 := by
  have hreq1 : ∀ x : Str, isRequiredField
      ⟨"chat_id".toList, ["Integer".toList], "Yes".toList, x⟩ = true := fun _ => rfl
  have hreq2 : isRequiredField ⟨"text".toList, ["String".toList], req, d2⟩ = false := by
    simp only [isRequiredField, decide_eq_false_iff_not]
    exact hreq
  have hc1 : snakeToCamel asciiLib "chat_id".toList = some "chatId".toList := by decide
  have hc2 : snakeToCamel asciiLib "text".toList = some "text".toList := by decide
  have ht2 : snakeToTitle asciiLib "text".toList = "Text".toList := by decide
  have hargs : getArgs asciiLib "sendMessage".toList (scenarioMethod req d1 d2 docs)
      = some ("chatId int64, opts SendMessageOpts".toList,
          "\ntype SendMessageOpts struct \x7b\nText string\n\x7d".toList) := by
    simp only [getArgs, scenarioMethod, argsLoop, hreq1, hreq2, hc1, ht2, index0, List.head?_cons,
      Option.bind_eq_bind, Option.some_bind, if_true, Bool.false_eq_true, if_false]
    rfl
  have hret : methodRetType d (scenarioMethod req d1 d2 docs) = some "*Message".toList := by
    have h1 : toGoTypes "Message".toList = "Message".toList := by decide
    simp only [methodRetType, scenarioMethod, index0, List.head?_cons, Option.map_some',
      Option.bind_eq_bind, Option.some_bind, h1, (isTgType_iff _ _).mpr hm, if_true]
    rfl
  have hvals : methodArgsToValues asciiLib (scenarioMethod req d1 d2 docs)
      (getDefaultReturnVal "*Message".toList)
      = some "\nv.Add(\"chat_id\", strconv.FormatInt(chatId, 10))\nv.Add(\"text\", opts.Text)".toList := by
    have hv1 := argToValues_unfold asciiLib
      ⟨"chat_id".toList, ["Integer".toList], "Yes".toList, d1⟩
      (getDefaultReturnVal "*Message".toList) "Integer".toList "chatId".toList [] rfl hc1
    have hv2 := argToValues_unfold asciiLib ⟨"text".toList, ["String".toList], req, d2⟩
      (getDefaultReturnVal "*Message".toList) "String".toList "text".toList [] rfl hc2
    have hg1 : goTypeToString (toGoTypes "Integer".toList) ≠ [] := by decide
    have hg2 : goTypeToString (toGoTypes "String".toList) ≠ [] := by decide
    rw [if_neg hg1, hreq1] at hv1
    rw [if_neg hg2, hreq2, ht2] at hv2
    rw [methodArgsToValues_eq]
    simp only [scenarioMethod, List.mapM_cons, List.mapM_nil, hv1, hv2, Option.bind_eq_bind,
      Option.some_bind, Option.pure_def, Option.map_some']
    rfl
  have hdec : decodeBlock asciiLib "*Message".toList
      = some "\nvar m Message\nreturn &m, json.Unmarshal(r, &m)\n\x7d".toList := by decide
  refine ⟨?_, hargs, by decide, by decide, by decide, by decide, by decide⟩
  rw [generateMethodDef_eq asciiLib d _ _ _ hret, hargs, hvals, hdec]
  simp only [Option.bind_eq_bind, Option.some_bind, scenarioMethod]
  have hopt : ("\ntype SendMessageOpts struct \x7b\nText string\n\x7d".toList ≠ []) := by decide
  rw [if_pos hopt]
  simp only [List.append_assoc]
  rfl

theorem scenario_sendMessage_witness :
    "Message".toList ∈ sampleAPI.Types.map Prod.fst
    ∧ "Optional".toList ≠ "Yes".toList
    ∧ generateMethodDef asciiLib sampleAPI
        (scenarioMethod "Optional".toList "Target".toList "Text".toList
          ["Send a message.".toList]) "sendMessage".toList
      = some (scenarioOpts
          ++ (["Send a message.".toList].map (fun x => "\n// ".toList ++ x)).flatten
          ++ scenarioBody)
    ∧ getArgs asciiLib "sendMessage".toList
        (scenarioMethod "Optional".toList "Target".toList "Text".toList
          ["Send a message.".toList])
      = some ("chatId int64, opts SendMessageOpts".toList,
          "\ntype SendMessageOpts struct \x7b\nText string\n\x7d".toList)
    ∧ HasPrefix scenarioBody scenarioSignature = true
    ∧ countOcc "json.Unmarshal".toList scenarioBody = 1
    ∧ countOcc "json.Unmarshal".toList scenarioOpts = 0
    ∧ indexOf "\n\tif err != nil \x7b\n\t\treturn nil, err\n\t\x7d".toList scenarioBody = some 224
    ∧ indexOf "json.Unmarshal".toList scenarioBody = some 289 :=
  ⟨by decide, by decide,
    scenario_sendMessage sampleAPI "Optional".toList "Target".toList "Text".toList
      ["Send a message.".toList] (by decide) (by decide)⟩

/-! ## Dispatch and decode -/

/-- C15: `generateMethodDef` returns a text exactly when the return type, the
parameter list, the field texts and the result variable are defined, and the text
is then the opening, the texts of all fields, the one dispatch statement
`r, err := bot.Request("<name>", v, nil)` with the schema name unchanged, directly
followed by the error check that returns the default value with `err`, and only
then the declaration of the result variable and the `json.Unmarshal` return. -/
theorem dispatch_rule (L : Lib) (d : APIDescription) (m : MethodDescription)
    (name text : Str) :
    generateMethodDef L d m name = some text ↔
      ∃ (retType : Str) (ap : Str × Str) (values x : Str),
        methodRetType d m = some retType
        ∧ getArgs L name m = some ap
        ∧ methodArgsToValues L m (getDefaultReturnVal retType) = some values
        ∧ getRetVarName L retType = some x
        ∧ text = (if ap.2 ≠ [] then "\n".toList ++ ap.2 else [])
          ++ (m.Description.map (fun x => "\n// ".toList ++ x)).flatten
          ++ ("\nfunc (bot Bot) ".toList ++ L.Title name ++ "(".toList ++ ap.1
            ++ ") (".toList ++ retType ++ ", error) \x7b".toList)
          ++ "\n\tv := urlLib.Values\x7b\x7d".toList ++ values
          ++ ("\n".toList
            ++ "\nr, err := bot.Request(\"".toList ++ name ++ "\", v, nil)".toList
            ++ "\n\tif err != nil \x7b".toList
            ++ "\n\t\treturn ".toList ++ getDefaultReturnVal retType ++ ", err".toList
            ++ "\n\t\x7d".toList
            ++ "\n".toList)
          ++ ("\nvar ".toList ++ x ++ " ".toList
            ++ (if HasPrefix retType "*".toList then TrimLeft retType "*".toList else retType)
            ++ "\nreturn ".toList ++ (if HasPrefix retType "*".toList then "&".toList else [])
            ++ x ++ ", json.Unmarshal(r, &".toList ++ x ++ ")".toList
            ++ "\n\x7d".toList) := by
  constructor
  · intro h
    cases hr : methodRetType d m with
    | none => simp [generateMethodDef, hr] at h
    | some retType =>
      rw [generateMethodDef_eq L d m name retType hr] at h
      cases ha : getArgs L name m with
      | none => simp [ha] at h
      | some ap =>
        cases hv : methodArgsToValues L m (getDefaultReturnVal retType) with
        | none => simp [ha, hv] at h
        | some values =>
          cases hx : getRetVarName L retType with
          | none => simp [ha, hv, decodeBlock, hx] at h
          | some x =>
            simp only [ha, hv, decodeBlock, hx, Option.bind_eq_bind, Option.some_bind] at h
            exact ⟨retType, ap, values, x, rfl, rfl, hv, hx, (Option.some.inj h).symm⟩
  · rintro ⟨retType, ap, values, x, hr, ha, hv, hx, rfl⟩
    rw [generateMethodDef_eq L d m name retType hr, ha, hv]
    simp only [decodeBlock, hx, Option.bind_eq_bind, Option.some_bind]
    rfl

theorem trimLeft_star (g : Str) (h : HasPrefix g "*".toList = false) :
    TrimLeft ("*".toList ++ g) "*".toList = g := by
  cases g with
  | nil => rfl
  | cons c cs =>
    have hc : c ≠ '*' := by
      intro e
      subst e
      simp [HasPrefix, List.isPrefixOf] at h
    simp [TrimLeft, List.dropWhile, hc]

/-- The end of a binding in terms of its parts, for a first return alternative `r`
whose mapped type `g` does not start with `*`: a declared `g` gives the result type
`"*" ++ g`, `var x g` and `return &x, json.Unmarshal(r, &x)`; otherwise `g`,
`var x g` and `return x, json.Unmarshal(r, &x)`. Without parameter list, field
texts or result variable there is no binding. -/
theorem return_decode_rule (L : Lib) (d : APIDescription) (m : MethodDescription)
    (name r : Str) (rs : List Str)
    (hr : m.Returns = r :: rs) (hstar : HasPrefix (toGoTypes r) "*".toList = false) :
    (toGoTypes r ∈ d.Types.map Prod.fst →
      generateMethodDef L d m name = (do
        let ap ← getArgs L name m
        let values ← methodArgsToValues L m "nil".toList
        let x ← getRetVarName L ("*".toList ++ toGoTypes r)
        pure ((if ap.2 ≠ [] then "\n".toList ++ ap.2 else [])
          ++ (m.Description.map (fun x => "\n// ".toList ++ x)).flatten
          ++ ("\nfunc (bot Bot) ".toList ++ L.Title name ++ "(".toList ++ ap.1
            ++ ") (".toList ++ ("*".toList ++ toGoTypes r) ++ ", error) \x7b".toList)
          ++ "\n\tv := urlLib.Values\x7b\x7d".toList ++ values
          ++ dispatchBlock name "nil".toList
          ++ ("\nvar ".toList ++ x ++ " ".toList ++ toGoTypes r
            ++ "\nreturn ".toList ++ "&".toList
            ++ x ++ ", json.Unmarshal(r, &".toList ++ x ++ ")".toList
            ++ "\n\x7d".toList))))
    ∧ (toGoTypes r ∉ d.Types.map Prod.fst →
      generateMethodDef L d m name = (do
        let ap ← getArgs L name m
        let values ← methodArgsToValues L m (getDefaultReturnVal (toGoTypes r))
        let x ← getRetVarName L (toGoTypes r)
        pure ((if ap.2 ≠ [] then "\n".toList ++ ap.2 else [])
          ++ (m.Description.map (fun x => "\n// ".toList ++ x)).flatten
          ++ ("\nfunc (bot Bot) ".toList ++ L.Title name ++ "(".toList ++ ap.1
            ++ ") (".toList ++ toGoTypes r ++ ", error) \x7b".toList)
          ++ "\n\tv := urlLib.Values\x7b\x7d".toList ++ values
          ++ dispatchBlock name (getDefaultReturnVal (toGoTypes r))
          ++ ("\nvar ".toList ++ x ++ " ".toList ++ toGoTypes r
            ++ "\nreturn ".toList
            ++ x ++ ", json.Unmarshal(r, &".toList ++ x ++ ")".toList
            ++ "\n\x7d".toList)))) := by
  constructor
  · intro hk
    have hret : methodRetType d m = some ("*".toList ++ toGoTypes r) := by
      simp only [methodRetType, index0, hr, List.head?_cons, Option.map_some',
        Option.bind_eq_bind, Option.some_bind, (isTgType_iff _ _).mpr hk, if_true]
      rfl
    have hdef : getDefaultReturnVal ("*".toList ++ toGoTypes r) = "nil".toList :=
      default_of_indirect _ (Or.inl (hasPrefix_append _ _))
    rw [generateMethodDef_eq L d m name _ hret, hdef]
    simp only [decodeBlock, hasPrefix_append, if_true, trimLeft_star _ hstar,
      Option.bind_eq_bind]
    cases getArgs L name m <;> cases methodArgsToValues L m "nil".toList <;>
      cases getRetVarName L ("*".toList ++ toGoTypes r) <;> rfl
  · intro hk
    have hnot : isTgType d.Types (toGoTypes r) = false := by
      cases h : isTgType d.Types (toGoTypes r) with
      | false => rfl
      | true => exact absurd ((isTgType_iff _ _).mp h) hk
    have hret : methodRetType d m = some (toGoTypes r) := by
      simp only [methodRetType, index0, hr, List.head?_cons, Option.map_some',
        Option.bind_eq_bind, Option.some_bind, hnot, Bool.false_eq_true, if_false]
      rfl
    rw [generateMethodDef_eq L d m name _ hret]
    simp only [decodeBlock, hstar, Bool.false_eq_true, if_false, Option.bind_eq_bind]
    cases getArgs L name m <;>
      cases methodArgsToValues L m (getDefaultReturnVal (toGoTypes r)) <;>
      cases getRetVarName L (toGoTypes r) <;>
      first
        | rfl
        | (simp only [List.append_nil]; rfl)

theorem return_decode_rule_witness :
    getMe.Returns = "Message".toList :: []
    ∧ HasPrefix (toGoTypes "Message".toList) "*".toList = false
    ∧ toGoTypes "Message".toList ∈ sampleAPI.Types.map Prod.fst
    ∧ generateMethodDef asciiLib sampleAPI getMe "getMe".toList = some getMeText
    ∧ generateMethodDef asciiLib sampleAPI getMe "getMe".toList = (do
        let ap ← getArgs asciiLib "getMe".toList getMe
        let values ← methodArgsToValues asciiLib getMe "nil".toList
        let x ← getRetVarName asciiLib ("*".toList ++ toGoTypes "Message".toList)
        pure ((if ap.2 ≠ [] then "\n".toList ++ ap.2 else [])
          ++ (getMe.Description.map (fun x => "\n// ".toList ++ x)).flatten
          ++ ("\nfunc (bot Bot) ".toList ++ asciiLib.Title "getMe".toList ++ "(".toList ++ ap.1
            ++ ") (".toList ++ ("*".toList ++ toGoTypes "Message".toList)
            ++ ", error) \x7b".toList)
          ++ "\n\tv := urlLib.Values\x7b\x7d".toList ++ values
          ++ dispatchBlock "getMe".toList "nil".toList
          ++ ("\nvar ".toList ++ x ++ " ".toList ++ toGoTypes "Message".toList
            ++ "\nreturn ".toList ++ "&".toList
            ++ x ++ ", json.Unmarshal(r, &".toList ++ x ++ ")".toList
            ++ "\n\x7d".toList))) :=
  ⟨rfl, by decide, by decide, by rfl,
    (return_decode_rule asciiLib sampleAPI getMe "getMe".toList "Message".toList [] rfl
      (by decide)).1 (by decide)⟩

/-! ## Layout of a record declaration -/

theorem fieldDef_mapM (L : Lib) (d : APIDescription) (fs : List TypeFields)
    (h : ∀ f ∈ fs, f.Types ≠ []) :
    fs.mapM (fieldDef L d) = some (fs.map (fun f =>
      "\n// ".toList ++ f.Description
        ++ ("\n".toList ++ snakeToTitle L f.Field ++ " ".toList ++ wrappedType d f
          ++ " `json:\"".toList ++ f.Field ++ "\"`".toList))) := by
  induction fs with
  | nil => rfl
  | cons f fs ih =>
    obtain ⟨t, ts, hts⟩ : ∃ t ts, f.Types = t :: ts := by
      cases hf : f.Types with
      | nil => exact absurd hf (h f (List.mem_cons_self _ _))
      | cons t ts => exact ⟨t, ts, rfl⟩
    rw [List.mapM_cons, ih (fun g hg => h g (List.mem_cons_of_mem _ hg))]
    simp only [fieldDef, memberType_eq d f t ts hts, Option.bind_eq_bind, Option.some_bind,
      List.map_cons, memberLine, wrappedType, firstType, hts, List.headD_cons]
    rfl

/-- C17: when every field of the type `n` has a type alternative, `generateTypeDef`
returns one comment line per entry of the description of the type, then
`type <n> struct {`, then for every field, in declared order, the comment line with
its description and the member line made of the title form of its name, its mapped
type and the tag carrying its schema name unchanged, then the closing brace. -/
theorem generateTypeDef_layout (L : Lib) (d : APIDescription) (n : Str)
    (h : ∀ f ∈ (mapGet zeroType d.Types n).Fields, f.Types ≠ []) :
    generateTypeDef L d n = some
      (((mapGet zeroType d.Types n).Description.map (fun x => "\n// ".toList ++ x)).flatten
        ++ "\ntype ".toList ++ n ++ " struct \x7b".toList
        ++ ((mapGet zeroType d.Types n).Fields.map (fun f =>
            "\n// ".toList ++ f.Description
              ++ ("\n".toList ++ snakeToTitle L f.Field ++ " ".toList ++ wrappedType d f
                ++ " `json:\"".toList ++ f.Field ++ "\"`".toList))).flatten
        ++ "\n\x7d".toList) := by
  simp only [generateTypeDef, fieldDef_mapM L d _ h, Option.bind_eq_bind, Option.some_bind]
  rfl

theorem generateTypeDef_layout_witness :
    (∀ f ∈ (mapGet zeroType sampleAPI.Types "Message".toList).Fields, f.Types ≠ [])
    ∧ generateTypeDef asciiLib sampleAPI "Message".toList = some
      (((mapGet zeroType sampleAPI.Types "Message".toList).Description.map
          (fun x => "\n// ".toList ++ x)).flatten
        ++ "\ntype ".toList ++ "Message".toList ++ " struct \x7b".toList
        ++ ((mapGet zeroType sampleAPI.Types "Message".toList).Fields.map (fun f =>
            "\n// ".toList ++ f.Description
              ++ ("\n".toList ++ snakeToTitle asciiLib f.Field ++ " ".toList
                ++ wrappedType sampleAPI f
                ++ " `json:\"".toList ++ f.Field ++ "\"`".toList))).flatten
        ++ "\n\x7d".toList) :=
  ⟨by decide, generateTypeDef_layout asciiLib sampleAPI "Message".toList (by decide)⟩

/-! ## Primitive parameters -/

/-- The text of a primitive field in terms of the camel form of its parameter:
the one line `v.Add("<parameter>", C)` with `C` the canonical conversion of the
value. Without a camel form there is no text. -/
theorem primitive_add_rule (L : Lib) (f : MethodFields) (dflt t : Str) (ts : List Str)
    (ht : f.Types = t :: ts)
    (hp : t ∈ ["Integer".toList, "Float".toList, "Boolean".toList, "String".toList]) :
    argToValues L f dflt = (snakeToCamel L f.Parameter).map (fun camel =>
      "\nv.Add(\"".toList ++ f.Parameter ++ "\", ".toList
        ++ primitiveConversion t
            (if isRequiredField f then camel else "opts.".toList ++ snakeToTitle L f.Parameter)
        ++ ")".toList) := by
  cases hc : snakeToCamel L f.Parameter with
  | none => simp [argToValues, hc]
  | some camel =>
    rw [argToValues_unfold L f dflt t camel ts ht hc, Option.map_some']
    simp only [List.mem_cons, List.mem_singleton, List.not_mem_nil, or_false] at hp
    rcases hp with h | h | h | h <;> subst h
    · rw [if_neg (by decide)]
      rfl
    · rw [if_neg (by decide)]
      rfl
    · rw [if_neg (by decide)]
      rfl
    · have h1 : goTypeToString (toGoTypes "String".toList) = "%s".toList := by decide
      have h2 : ∀ p : Str, Sprintf1 "%s".toList p = p := fun p => List.append_nil p
      rw [if_neg (by decide), h1, h2]
      rfl

theorem primitive_add_rule_witness :
    chatIdField.Types = "Integer".toList :: ["String".toList]
    ∧ "Integer".toList
        ∈ ["Integer".toList, "Float".toList, "Boolean".toList, "String".toList]
    ∧ argToValues asciiLib chatIdField "nil".toList
        = some "\nv.Add(\"chat_id\", strconv.FormatInt(chatId, 10))".toList
    ∧ argToValues asciiLib chatIdField "nil".toList
      = (snakeToCamel asciiLib chatIdField.Parameter).map (fun camel =>
        "\nv.Add(\"".toList ++ chatIdField.Parameter ++ "\", ".toList
          ++ primitiveConversion "Integer".toList
              (if isRequiredField chatIdField then camel
                else "opts.".toList ++ snakeToTitle asciiLib chatIdField.Parameter)
          ++ ")".toList) :=
  ⟨rfl, by decide, by rfl,
    primitive_add_rule asciiLib chatIdField "nil".toList "Integer".toList ["String".toList]
      rfl (by decide)⟩

/-! ## Names in the scope of a binding -/

set_option maxRecDepth 10000 in
/-- C19 at the failing inputs: for a method that returns `Video` the result
variable is `v`, the name of the request-parameter set declared two statements
earlier; for a method with the parameter `m` that returns `Message` the result
variable is `m`, the name of that parameter. -/
theorem result_variable_redeclared :
    getRetVarName asciiLib "*Video".toList = some "v".toList
    ∧ generateMethodDef asciiLib videoAPI getVideo "getVideo".toList = some
        "\nfunc (bot Bot) GetVideo() (*Video, error) \x7b\n\tv := urlLib.Values\x7b\x7d\n\nr, err := bot.Request(\"getVideo\", v, nil)\n\tif err != nil \x7b\n\t\treturn nil, err\n\t\x7d\n\nvar v Video\nreturn &v, json.Unmarshal(r, &v)\n\x7d".toList
    ∧ getRetVarName asciiLib "*Message".toList = some "m".toList
    ∧ getArgs asciiLib "echo".toList echoMethod = some ("m int64".toList, [])
    ∧ generateMethodDef asciiLib videoAPI echoMethod "echo".toList = some
        "\nfunc (bot Bot) Echo(m int64) (*Message, error) \x7b\n\tv := urlLib.Values\x7b\x7d\nv.Add(\"m\", strconv.FormatInt(m, 10))\n\nr, err := bot.Request(\"echo\", v, nil)\n\tif err != nil \x7b\n\t\treturn nil, err\n\t\x7d\n\nvar m Message\nreturn &m, json.Unmarshal(r, &m)\n\x7d".toList := by
  refine ⟨by decide, by rfl, by decide, by decide, by rfl⟩

/-! ## Agreement of the parameter list and the request values -/

theorem mapM_isSome {α β : Type} (F : α → Option β) (l : List α)
    (h : ∀ a ∈ l, (F a).isSome = true) : (l.mapM F).isSome = true := by
  induction l with
  | nil => rfl
  | cons a l ih =>
    obtain ⟨y, hy⟩ := Option.isSome_iff_exists.mp (h a (List.mem_cons_self _ _))
    obtain ⟨ys, hys⟩ := Option.isSome_iff_exists.mp
      (ih (fun b hb => h b (List.mem_cons_of_mem _ hb)))
    rw [List.mapM_cons, hy, hys]
    rfl

theorem argToValues_isSome (L : Lib) (f : MethodFields) (dflt : Str)
    (hT : f.Types ≠ []) (hC : snakeToTitle L f.Parameter ≠ []) :
    (argToValues L f dflt).isSome = true := by
  cases hts : f.Types with
  | nil => exact absurd hts hT
  | cons t ts =>
    rw [argToValues_unfold L f dflt t _ ts hts (snakeToCamel_eq L f.Parameter hC)]
    split
    · split <;> rfl
    · rfl

/-- C20: on a method all of whose fields have a type alternative and a non-empty
title form, `getArgs` and `methodArgsToValues` both return, and for each field
`f`: the text of `f` refers to the value through `opts.<X>` with `X` the title form
when `f` is not required, and then `X <type>` is a member of the options struct and
the parameter list ends with the `opts` parameter; it refers to it through the
camel form when `f` is required, and then `<camel> <type>` is a positional
parameter. -/
theorem args_values_agree (L : Lib) (name dflt : Str) (m : MethodDescription)
    (f : MethodFields) (t : Str) (ts : List Str)
    (hT : ∀ g ∈ m.Fields, g.Types ≠ [])
    (hC : ∀ g ∈ m.Fields, snakeToTitle L g.Parameter ≠ [])
    (hf : f ∈ m.Fields) (ht : f.Types = t :: ts) :
    getArgs L name m = some
      (Join (requiredEntries L m.Fields
          ++ (if optionalEntries L m.Fields = [] then []
              else ["opts ".toList ++ (snakeToTitle L name ++ "Opts".toList)])) ", ".toList,
       if optionalEntries L m.Fields = [] then []
       else "\ntype ".toList ++ (snakeToTitle L name ++ "Opts".toList) ++ " struct \x7b".toList
          ++ ((optionalEntries L m.Fields).map (fun opt => "\n".toList ++ opt)).flatten
          ++ "\n\x7d".toList)
    ∧ (methodArgsToValues L m dflt).isSome = true
    ∧ argToValues L f dflt =
        (if goTypeToString (toGoTypes t) = [] then
          if HasPrefix t "Input".toList = true then some []
          else some
            ((if HasPrefix t "Array of ".toList = true then
                "\nif ".toList
                  ++ (if isRequiredField f then camelOf L f.Parameter
                      else "opts.".toList ++ snakeToTitle L f.Parameter)
                  ++ " != nil \x7b".toList
              else [])
            ++ marshalBlock f
                (if isRequiredField f then camelOf L f.Parameter
                  else "opts.".toList ++ snakeToTitle L f.Parameter)
                (camelOf L f.Parameter ++ "Bs".toList) dflt
            ++ (if HasPrefix t "Array of ".toList = true then "\n\x7d".toList else []))
        else some ("\nv.Add(\"".toList ++ f.Parameter ++ "\", ".toList
            ++ Sprintf1 (goTypeToString (toGoTypes t))
                (if isRequiredField f then camelOf L f.Parameter
                  else "opts.".toList ++ snakeToTitle L f.Parameter)
            ++ ")".toList))
    ∧ (isRequiredField f = true →
        camelOf L f.Parameter ++ " ".toList ++ toGoTypes t ∈ requiredEntries L m.Fields)
    ∧ (isRequiredField f = false →
        snakeToTitle L f.Parameter ++ " ".toList ++ toGoTypes t ∈ optionalEntries L m.Fields
        ∧ optionalEntries L m.Fields ≠ []) := by
  have hft : firstType f.Types = t := by rw [ht]; rfl
  refine ⟨getArgs_partition L name m hT (fun g hg _ => hC g hg), ?_,
    argToValues_unfold L f dflt t _ ts ht (snakeToCamel_eq L f.Parameter (hC f hf)), ?_, ?_⟩
  · rw [methodArgsToValues_eq, Option.isSome_map']
    exact mapM_isSome _ _ (fun g hg => argToValues_isSome L g dflt (hT g hg) (hC g hg))
  · intro hr
    have hmem : f ∈ m.Fields.filter isRequiredField := List.mem_filter.mpr ⟨hf, hr⟩
    have h2 : camelOf L f.Parameter ++ " ".toList ++ toGoTypes (firstType f.Types)
        ∈ requiredEntries L m.Fields :=
      List.mem_map_of_mem
        (fun f => camelOf L f.Parameter ++ " ".toList ++ toGoTypes (firstType f.Types)) hmem
    rw [hft] at h2
    exact h2
  · intro hr
    have hmem : f ∈ m.Fields.filter (fun f => !isRequiredField f) :=
      List.mem_filter.mpr ⟨hf, by simp [hr]⟩
    have h2 : snakeToTitle L f.Parameter ++ " ".toList ++ toGoTypes (firstType f.Types)
        ∈ optionalEntries L m.Fields :=
      List.mem_map_of_mem
        (fun f => snakeToTitle L f.Parameter ++ " ".toList ++ toGoTypes (firstType f.Types)) hmem
    rw [hft] at h2
    exact ⟨h2, List.ne_nil_of_mem h2⟩

theorem args_values_agree_witness :
    (∀ g ∈ sendMessage.Fields, g.Types ≠ [])
    ∧ (∀ g ∈ sendMessage.Fields, snakeToTitle asciiLib g.Parameter ≠ [])
    ∧ textField ∈ sendMessage.Fields
    ∧ textField.Types = "String".toList :: []
    ∧ getArgs asciiLib "sendMessage".toList sendMessage = some
      (Join (requiredEntries asciiLib sendMessage.Fields
          ++ (if optionalEntries asciiLib sendMessage.Fields = [] then []
              else ["opts ".toList
                ++ (snakeToTitle asciiLib "sendMessage".toList ++ "Opts".toList)]))
          ", ".toList,
       if optionalEntries asciiLib sendMessage.Fields = [] then []
       else "\ntype ".toList ++ (snakeToTitle asciiLib "sendMessage".toList ++ "Opts".toList)
          ++ " struct \x7b".toList
          ++ ((optionalEntries asciiLib sendMessage.Fields).map
              (fun opt => "\n".toList ++ opt)).flatten
          ++ "\n\x7d".toList)
    ∧ (methodArgsToValues asciiLib sendMessage "nil".toList).isSome = true
    ∧ argToValues asciiLib textField "nil".toList =
        (if goTypeToString (toGoTypes "String".toList) = [] then
          if HasPrefix "String".toList "Input".toList = true then some []
          else some
            ((if HasPrefix "String".toList "Array of ".toList = true then
                "\nif ".toList
                  ++ (if isRequiredField textField then camelOf asciiLib textField.Parameter
                      else "opts.".toList ++ snakeToTitle asciiLib textField.Parameter)
                  ++ " != nil \x7b".toList
              else [])
            ++ marshalBlock textField
                (if isRequiredField textField then camelOf asciiLib textField.Parameter
                  else "opts.".toList ++ snakeToTitle asciiLib textField.Parameter)
                (camelOf asciiLib textField.Parameter ++ "Bs".toList) "nil".toList
            ++ (if HasPrefix "String".toList "Array of ".toList = true then "\n\x7d".toList
                else []))
        else some ("\nv.Add(\"".toList ++ textField.Parameter ++ "\", ".toList
            ++ Sprintf1 (goTypeToString (toGoTypes "String".toList))
                (if isRequiredField textField then camelOf asciiLib textField.Parameter
                  else "opts.".toList ++ snakeToTitle asciiLib textField.Parameter)
            ++ ")".toList))
    ∧ (isRequiredField textField = true →
        camelOf asciiLib textField.Parameter ++ " ".toList ++ toGoTypes "String".toList
          ∈ requiredEntries asciiLib sendMessage.Fields)
    ∧ (isRequiredField textField = false →
        snakeToTitle asciiLib textField.Parameter ++ " ".toList ++ toGoTypes "String".toList
          ∈ optionalEntries asciiLib sendMessage.Fields
        ∧ optionalEntries asciiLib sendMessage.Fields ≠ []) :=
  ⟨by decide, by decide, by decide, rfl,
    args_values_agree asciiLib "sendMessage".toList "nil".toList sendMessage textField
      "String".toList [] (by decide) (by decide) (by decide) rfl⟩

/-! ## Fields and return types on which no text is emitted -/

/-- C6 at the failing input: the field `_` of first alternative
`"Array of Integer"` is not required, and `getArgs` accepts the method; the claimed
text is the marshal block between `if opts. != nil {` and `}`, but
`methodArgsToValues` panics on the field (in `snakeToCamel`, whose title is empty)
and emits nothing. -/
theorem array_field_underscore_panics :
    underscoreArrayField.Types = ["Array of Integer".toList]
    ∧ HasPrefix "Array of Integer".toList "Array of ".toList = true
    ∧ isRequiredField underscoreArrayField = false
    ∧ getArgs asciiLib "setNumbers".toList underscoreArrayMethod
        = some ("opts SetNumbersOpts".toList,
            "\ntype SetNumbersOpts struct \x7b\n []int64\n\x7d".toList)
    ∧ snakeToCamel asciiLib underscoreArrayField.Parameter = none
    ∧ argToValues asciiLib underscoreArrayField "false".toList = none
    ∧ methodArgsToValues asciiLib underscoreArrayMethod "false".toList = none := by
  decide

/-- C18 at the failing input: the field `_` of first alternative `"String"` is not
required, and `getArgs` accepts the method; the claimed text is the one line
`v.Add("_", opts.)`, which needs no camel form, but `methodArgsToValues` panics on
the field (in `snakeToCamel`, whose title is empty) and emits nothing. -/
theorem primitive_field_underscore_panics :
    underscoreTextField.Types = ["String".toList]
    ∧ "String".toList ∈ ["Integer".toList, "Float".toList, "Boolean".toList, "String".toList]
    ∧ isRequiredField underscoreTextField = false
    ∧ getArgs asciiLib "setText".toList underscoreTextMethod
        = some ("opts SetTextOpts".toList, "\ntype SetTextOpts struct \x7b\n string\n\x7d".toList)
    ∧ snakeToCamel asciiLib underscoreTextField.Parameter = none
    ∧ argToValues asciiLib underscoreTextField "false".toList = none
    ∧ methodArgsToValues asciiLib underscoreTextMethod "false".toList = none := by
  decide

/-- C16 at the failing input: the method `arrayOnlyMethod` has the return
alternative `"Array of "`, whose mapped type `[]` is not empty, does not start with
`*` and is not a declared type; the parameter list and the field texts are
defined, but `getRetVarName` strips `[]` down to the empty string and panics on
the slice `retType[:1]`, so `generateMethodDef` emits no binding; nor does it for
`underscoreMethod`, which returns `Boolean` and panics on its parameter `_`. -/
theorem array_only_return_panics :
    arrayOnlyMethod.Returns = ["Array of ".toList]
    ∧ toGoTypes "Array of ".toList = "[]".toList
    ∧ "[]".toList ≠ []
    ∧ HasPrefix "[]".toList "*".toList = false
    ∧ "[]".toList ∉ emptyAPI.Types.map Prod.fst
    ∧ methodRetType emptyAPI arrayOnlyMethod = some "[]".toList
    ∧ getArgs asciiLib "getList".toList arrayOnlyMethod = some ([], [])
    ∧ methodArgsToValues asciiLib arrayOnlyMethod (getDefaultReturnVal "[]".toList) = some []
    ∧ getRetVarName asciiLib "[]".toList = none
    ∧ generateMethodDef asciiLib emptyAPI arrayOnlyMethod "getList".toList = none
    ∧ underscoreMethod.Returns = ["Boolean".toList]
    ∧ toGoTypes "Boolean".toList = "bool".toList
    ∧ generateMethodDef asciiLib emptyAPI underscoreMethod "getNumber".toList = none := by
  decide

end Gen
